import Mathlib

/-!
Verification of the nxquery discovery-and-regeneration engine.

This file gives a shallow embedding, in Lean 4, of the core of the
`vite-plugin-nxquery` code base: the structural extractor
(`FileSystemReader.parseOperationFile` and friends), the tree walker
(`collectNamespaces` / `collectOperations`), the deterministic renderer
(`CodeGenerator`), the artifact writer and template seeder
(`FileSystemWriter`), the change filter (`FileWatcher.shouldProcess`) and
the coalescing synchronization scheduler
(`NXQueryPlugin.scheduleSync` / `runSync`).

Conventions of the embedding:
- File-system paths are modelled as `/`-separated strings; `path.join`,
  `path.dirname`, `path.relative` and `path.basename` are modelled at the
  segment level (the code only ever runs them on already-resolved paths).
- `localeCompare`-based sorts and JavaScript's default string sort are both
  modelled by the lexicographic order on Lean strings.
- The file system itself is a partial map `String → Option String` from
  paths to file contents; directories are implicit.
- The external `oxc-parser` is modelled by its observable outcome: either a
  thrown exception or a `{ program, errors }` record over a small AST model
  that carries exactly the structure the extractor inspects.
- Asynchrony: the promise chain of the scheduler is modelled by an explicit
  event-step relation (for coalescing) and by chain-position timestamps
  (for mutual exclusion of passes).
-/

namespace NXQ

/-! ## JavaScript string helpers -/

/-- JS `String.prototype.trim` whitespace predicate (modelled by
`Char.isWhitespace`). -/
def jsWs (c : Char) : Bool := c.isWhitespace

/-- Model of JS `s.trim()`: strip leading and trailing whitespace. -/
def jsTrim (s : String) : String :=
  String.mk (((s.data.dropWhile jsWs).reverse.dropWhile jsWs).reverse)

/-- `s.endsWith(suffix)`, computed on the character lists. -/
def strEndsWith (s suffix : String) : Bool :=
  suffix.data.isSuffixOf s.data

/-- `s.startsWith(pre)`, computed on the character lists. -/
def strStartsWith (s pre : String) : Bool :=
  pre.data.isPrefixOf s.data

/-- Drop the last `n` characters of a string. -/
def strDropRight (s : String) (n : Nat) : String :=
  String.mk (s.data.take (s.data.length - n))

/-- `Array.prototype.join(sep)` / `String.intercalate`, recursively. -/
def joinSep (sep : String) : List String → String
  | [] => ""
  | [a] => a
  | a :: b :: rest => a ++ sep ++ joinSep sep (b :: rest)

/-- Characters kept by the segment split in `toPascalCase`
(the regex `[^A-Za-z0-9]+` splits on everything else). -/
def isAlnumAscii (c : Char) : Bool :=
  (('A' ≤ c && c ≤ 'Z') || ('a' ≤ c && c ≤ 'z') || ('0' ≤ c && c ≤ '9'))

/-- Split a character list into maximal runs of ASCII alphanumerics,
dropping the separators: this is `value.split(/[^A-Za-z0-9]+/)` followed by
`.filter(Boolean)`. -/
def alnumRuns : List Char → List (List Char)
  | [] => []
  | c :: rest =>
    let tail := alnumRuns rest
    if isAlnumAscii c then
      match rest with
      | r :: _ =>
        if isAlnumAscii r then
          match tail with
          | run :: runs => (c :: run) :: runs
          | [] => [[c]]
        else [c] :: tail
      | [] => [[c]]
    else tail

/-- JS `segment.charAt(0).toUpperCase() + segment.slice(1)` on an ASCII
alphanumeric segment. -/
def capitalizeRun : List Char → List Char
  | [] => []
  | c :: rest => c.toUpper :: rest

/-- `FileSystemReader.toPascalCase` (identical copies live in
`CodeGenerator` and `FileSystemWriter`): split on non-alphanumerics, drop
empty segments, capitalize each segment, concatenate. -/
def toPascalCase (value : String) : String :=
  String.mk (((alnumRuns value.data).map capitalizeRun).flatten)

/-- `CodeGenerator.toCamelCase`: PascalCase with the first character
lowered. -/
def toCamelCase (value : String) : String :=
  match (toPascalCase value).data with
  | [] => ""
  | c :: rest => String.mk (c.toLower :: rest)

/-- First character of the identifier regex `^[A-Za-z_$][\w$]*$`. -/
def isIdentStart (c : Char) : Bool :=
  (('A' ≤ c && c ≤ 'Z') || ('a' ≤ c && c ≤ 'z') || c = '_' || c = '$')

/-- Continuation characters of the identifier regex (`\w` is
`[A-Za-z0-9_]`). -/
def isIdentCont (c : Char) : Bool :=
  isIdentStart c || ('0' ≤ c && c ≤ '9')

/-- `CodeGenerator.isValidIdentifier` / `FileSystemWriter.isValidIdentifier`:
the regex test `^[A-Za-z_$][\w$]*$`. -/
def isValidIdentifier (value : String) : Bool :=
  match value.data with
  | [] => false
  | c :: rest => isIdentStart c && rest.all isIdentCont

/-- Lower-case hex digit, used by the `\u00XX` escapes of
`JSON.stringify`. -/
def hexDigit (n : Nat) : Char :=
  if n < 10 then Char.ofNat (48 + n) else Char.ofNat (87 + n)

/-- Escape of a single character under `JSON.stringify` for strings. -/
def jsonEscapeChar (c : Char) : List Char :=
  if c = '"' then ['\\', '"']
  else if c = '\\' then ['\\', '\\']
  else if c = '\x08' then ['\\', 'b']
  else if c = '\x0c' then ['\\', 'f']
  else if c = '\n' then ['\\', 'n']
  else if c = '\r' then ['\\', 'r']
  else if c = '\t' then ['\\', 't']
  else if c.toNat < 32 then
    ['\\', 'u', '0', '0', hexDigit (c.toNat / 16), hexDigit (c.toNat % 16)]
  else [c]

/-- Model of `JSON.stringify` on a string value. -/
def jsonStringify (s : String) : String :=
  "\"" ++ String.mk ((s.data.map jsonEscapeChar).flatten) ++ "\""

/-- `CodeGenerator.formatPropertyKey`: a valid bare identifier is used
directly, anything else becomes a bracketed JSON-string accessor. -/
def formatPropertyKey (name : String) : String :=
  if isValidIdentifier name then name else "[" ++ jsonStringify name ++ "]"

/-- `FileSystemWriter.buildPropertyAccessor`: dot access for identifiers,
bracket access otherwise. -/
def buildPropertyAccessor (objectName key : String) : String :=
  if isValidIdentifier key then objectName ++ "." ++ key
  else objectName ++ "[" ++ jsonStringify key ++ "]"

/-- `Array.prototype.join('\n')` on the rendered line arrays. -/
def joinNl (l : List String) : String := joinSep "\n" l

/-! ## Path model (`node:path` on resolved, `/`-separated paths) -/

/-- Split a character list on `/`. -/
def splitSlashChars : List Char → List (List Char)
  | [] => [[]]
  | c :: rest =>
    if c = '/' then [] :: splitSlashChars rest
    else
      match splitSlashChars rest with
      | h :: t => (c :: h) :: t
      | [] => [[c]]

/-- Path segments of a resolved path string (`p.split('/')` /
`String.splitOn "/"`). -/
def splitPath (p : String) : List String :=
  (splitSlashChars p.data).map String.mk

/-- `path.join` of two path pieces. -/
def joinPath (a b : String) : String := a ++ "/" ++ b

/-- Segment form of `path.relative(src, dst)` on resolved paths: drop the
common prefix, then one `..` per remaining `src` segment followed by the
remaining `dst` segments. -/
def pathRelativeSegs : List String → List String → List String
  | [], bs => bs
  | _ :: as, [] => List.replicate (as.length + 1) ".."
  | a :: as, b :: bs =>
    if a = b then pathRelativeSegs as bs
    else List.replicate (as.length + 1) ".." ++ (b :: bs)

/-- `path.relative(src, dst)` as a string. -/
def pathRelative (src dst : String) : String :=
  joinSep "/" (pathRelativeSegs (splitPath src) (splitPath dst))

/-- `path.dirname`. -/
def dirname (p : String) : String :=
  joinSep "/" (splitPath p).dropLast

/-- `path.basename(p, '.ts')`: the final segment, with a trailing `.ts`
stripped. -/
def basenameTs (p : String) : String :=
  let b := ((splitPath p).getLast?).getD ""
  if strEndsWith b ".ts" then strDropRight b 3 else b

/-- `FileSystemReader.normalizeImportPath` (an identical copy lives in
`CodeGenerator`): relative path from the directory of `src` to `dst`,
forced to start with `.` and with a `.ts` extension stripped. -/
def normalizeImportPath (src dst : String) : String :=
  let relative := pathRelative (dirname src) dst
  let relative := if strStartsWith relative "." then relative else "./" ++ relative
  if strEndsWith relative ".ts" then strDropRight relative 3 else relative

/-! ## Data model (`FileSystemReader.ts`) -/

/-- `OperationKind`: `'query' | 'mutation'`. -/
inductive OperationKind where
  | query
  | mutation
deriving DecidableEq, Repr

/-- `OperationInfo`: one discovered operation unit. The field `nspace`
models the source field `namespace` (a reserved word in Lean). -/
structure OperationInfo where
  kind : OperationKind
  nspace : String
  name : String
  filePath : String
  importPath : String
  factoryName : String
  aliasName : String
  paramName : Option String
  paramType : Option String
  hasParams : Bool
  argsTypeName : Option String
deriving DecidableEq, Repr

/-- `OperationBucket`: at most one query and one mutation descriptor per
operation name. -/
structure OperationBucket where
  query : Option OperationInfo := none
  mutation : Option OperationInfo := none
deriving DecidableEq, Repr

/-- The empty bucket (`{}` in `collectOperations`). -/
def emptyBucket : OperationBucket := {}

/-- `NamespaceInfo`: the per-namespace model; `operations` is the sorted
`Map` in iteration order. -/
structure NamespaceInfo where
  name : String
  absolutePath : String
  operations : List (String × OperationBucket)
deriving DecidableEq, Repr

/-- `Object.values(bucket)` in the order the kinds are populated by the
walker (queries are visited before mutations). -/
def bucketValues (b : OperationBucket) : List OperationInfo :=
  b.query.toList ++ b.mutation.toList

/-! ## AST model for the structural extractor

The extractor inspects only a narrow slice of the oxc AST: exported
variable declarations whose declarators bind an identifier to an arrow
function or function expression, and exported type aliases / interfaces.
The model below carries exactly that slice. -/

/-- The shape of a declarator's `init` expression, as far as
`findOperationFactory` distinguishes it. -/
inductive InitKind where
  | arrowFn
  | funcExpr
  | otherExpr
deriving DecidableEq, Repr

/-- A function parameter: whether its pattern is a plain `Identifier`, the
identifier text (`""` models an absent/falsy `param.name`), and the raw
text of its type annotation (including the leading `:`), if any. -/
structure Param where
  isIdent : Bool
  pname : String
  typeAnn : Option String
deriving DecidableEq, Repr

/-- A variable declarator: `id` (the bound name when the pattern is an
`Identifier`), `init`, and the parameter list of the initializer when it is
function-like. -/
structure Declarator where
  idName : Option String
  init : Option InitKind
  params : List Param
deriving DecidableEq, Repr

/-- A top-level statement, as far as the extractor distinguishes it. -/
inductive TopNode where
  | exportVarDecl (declarations : List Declarator)
  | exportTypeDecl (idName : Option String)
  | exportOther
  | plainNode
deriving DecidableEq, Repr

/-- `program.body`. -/
def Program := List TopNode
deriving DecidableEq

/-- Is this declarator's `init` an `ArrowFunctionExpression` or
`FunctionExpression`? -/
def functionValued : Option InitKind → Bool
  | some .arrowFn => true
  | some .funcExpr => true
  | _ => false

/-- One export's contribution to the candidate list of
`findOperationFactory`: declarators with an `Identifier` id and a
function-like init. -/
def nodeCandidates : TopNode → List Declarator
  | .exportVarDecl ds => ds.filter (fun d => d.idName.isSome && functionValued d.init)
  | _ => []

/-- The candidate list built by `findOperationFactory`, in declaration
order. -/
def collectCandidates (prog : Program) : List Declarator :=
  (prog.map nodeCandidates).flatten

/-- Does this declarator carry one of the two canonical factory names? -/
def isCanonical (d : Declarator) : Bool :=
  d.idName = some "createQueryOptions" || d.idName = some "createMutationOptions"

/-- `FileSystemReader.findOperationFactory`: collect the exported
function-valued declarators, prefer an exact canonical name, otherwise take
the first candidate; `none` when there is no candidate. -/
def findOperationFactory (prog : Program) : Option Declarator :=
  let candidates := collectCandidates prog
  match candidates.find? isCanonical with
  | some preferred => some preferred
  | none => candidates.head?

/-- `FileSystemReader.findArgsTypeName`: the first exported type alias or
interface whose identifier ends in `Args`. -/
def findArgsTypeName : Program → Option String
  | [] => none
  | .exportTypeDecl (some nm) :: rest =>
    if strEndsWith nm "Args" then some nm else findArgsTypeName rest
  | _ :: rest => findArgsTypeName rest

/-- The exported type-alias/interface identifiers of a program, in
declaration order (the search space of `findArgsTypeName`). -/
def exportedTypeNames : Program → List String
  | [] => []
  | .exportTypeDecl (some nm) :: rest => nm :: exportedTypeNames rest
  | _ :: rest => exportedTypeNames rest

/-- `FileSystemReader.extractParamName`: `undefined` for a missing
parameter, the identifier text for a plain named parameter, the fixed
placeholder `args` for any other pattern. -/
def extractParamName : Option Param → Option String
  | none => none
  | some pm => if pm.isIdent && pm.pname ≠ "" then some pm.pname else some "args"

/-- `FileSystemReader.extractTypeAnnotation` applied to the pre-sliced raw
annotation text: strip the leading `:` and whitespace, trim, and map the
empty result to `undefined`. -/
def extractTypeAnn : Option Param → Option String
  | none => none
  | some pm =>
    match pm.typeAnn with
    | none => none
    | some raw =>
      let stripped :=
        match raw.data with
        | ':' :: rest => List.dropWhile jsWs rest
        | l => l
      let t := jsTrim (String.mk stripped)
      if t = "" then none else some t

/-- `FileSystemReader.buildAlias`: `create`-prefixed (only when the export
used a canonical name) PascalCase concatenation of namespace and file base
name, suffixed by the kind. -/
def buildAlias (nspace exportName : String) (kind : OperationKind) (filePath : String) : String :=
  let namespacePascal := toPascalCase nspace
  let filePascal := toPascalCase (basenameTs filePath)
  let kindSuffix := match kind with
    | .query => "QueryOptions"
    | .mutation => "MutationOptions"
  let pre := if exportName = "createQueryOptions" ∨ exportName = "createMutationOptions"
    then "create" else ""
  pre ++ namespacePascal ++ filePascal ++ kindSuffix

/-- Observable outcome of `parseSync`: either a thrown exception or a
result record carrying a (possibly empty) parser-error list and the
program. -/
inductive ParseOutcome where
  | threw (err : String)
  | result (errors : List String) (program : Program)
deriving DecidableEq

/-- The `console.warn('[nxquery] Failed to parse', filePath, details)`
diagnostic, flattened to one string. -/
def parseDiag (filePath details : String) : String :=
  "[nxquery] Failed to parse " ++ filePath ++ " " ++ details

/-- `FileSystemReader.parseOperationFile`. `readResult` is the outcome of
`fs.readFile` (`none` = the read threw) and `parsed` the outcome of
`parseSync` on that content. Returns the descriptor (or `none`) together
with the list of emitted diagnostics. -/
def parseOperationFile (resolvedDir nspace : String) (kind : OperationKind)
    (filePath : String) (readResult : Option String) (parsed : ParseOutcome) :
    Option OperationInfo × List String :=
  match readResult with
  | none => (none, [])
  | some _code =>
    match parsed with
    | .threw e => (none, [parseDiag filePath e])
    | .result errors prog =>
      if errors.isEmpty then
        match findOperationFactory prog with
        | none => (none, [])
        | some d =>
          match d.idName with
          | none => (none, [])
          | some fname =>
            if functionValued d.init then
              let firstParam := if kind = .mutation then none else d.params.head?
              (some {
                kind := kind
                nspace := nspace
                name := basenameTs filePath
                filePath := filePath
                importPath := normalizeImportPath (joinPath resolvedDir "index.ts") filePath
                factoryName := fname
                aliasName := buildAlias nspace fname kind filePath
                paramName := if kind = .mutation then none else extractParamName firstParam
                paramType := if kind = .mutation then none else extractTypeAnn firstParam
                hasParams := if kind = .mutation then false else firstParam.isSome
                argsTypeName := findArgsTypeName prog }, [])
            else (none, [])
      else
        (none, errors.map (fun details => parseDiag filePath details))

/-! ## Tree walker (`collectOperations` / `collectNamespaces`) -/

/-- `bucket[kind] = info`. -/
def setKind (k : OperationKind) (i : OperationInfo) (b : OperationBucket) : OperationBucket :=
  match k with
  | .query => { b with query := some i }
  | .mutation => { b with mutation := some i }

/-- The JS `Map` update `map.set(info.name, { ...map.get(info.name), [kind]: info })`:
update in place when the key exists (preserving its position), append
otherwise. -/
def insertOp : List (String × OperationBucket) → OperationKind → OperationInfo →
    List (String × OperationBucket)
  | [], k, i => [(i.name, setKind k i emptyBucket)]
  | e :: rest, k, i =>
    if e.1 = i.name then (e.1, setKind k i e.2) :: rest
    else e :: insertOp rest k i

/-- `map.get(n)` on the bucket map. -/
def lookupOp : List (String × OperationBucket) → String → Option OperationBucket
  | [], _ => none
  | e :: rest, n => if e.1 = n then some e.2 else lookupOp rest n

/-- One `visit(kind, folder)` loop of `collectOperations`: walk the
directory listing, keep `.ts` files, parse each, and insert every non-null
descriptor; diagnostics accumulate across files. `pf kind filePath` models
`this.parseOperationFile(namespace, kind, filePath)`. -/
def visitFold (pf : OperationKind → String → Option OperationInfo × List String)
    (k : OperationKind) (namespacePath folder : String) :
    List String → List (String × OperationBucket) × List String →
    List (String × OperationBucket) × List String
  | [], acc => acc
  | fname :: rest, acc =>
    if strEndsWith fname ".ts" then
      let filePath := joinPath (joinPath namespacePath folder) fname
      match pf k filePath with
      | (some info, ds) => visitFold pf k namespacePath folder rest (insertOp acc.1 k info, acc.2 ++ ds)
      | (none, ds) => visitFold pf k namespacePath folder rest (acc.1, acc.2 ++ ds)
    else visitFold pf k namespacePath folder rest acc

/-- Sort relation on bucket-map entries (`localeCompare` on the keys). -/
def entryLe (a b : String × OperationBucket) : Prop := a.1 ≤ b.1

instance : DecidableRel entryLe := fun a b => inferInstanceAs (Decidable (a.1 ≤ b.1))

/-- The final `new Map([...map.entries()].sort(...))` of
`collectOperations`. -/
def sortEntries (m : List (String × OperationBucket)) : List (String × OperationBucket) :=
  List.insertionSort entryLe m

/-- `FileSystemReader.collectOperations`: visit the `queries` folder, then
the `mutations` folder, then sort the entries by name. `queries` and
`mutations` are the directory listings (file entries only — directory
entries are already excluded by `entry.isFile()`). -/
def collectOperations (pf : OperationKind → String → Option OperationInfo × List String)
    (namespacePath : String) (queries mutations : List String) :
    List (String × OperationBucket) × List String :=
  let acc₁ := visitFold pf .query namespacePath "queries" queries ([], [])
  let acc₂ := visitFold pf .mutation namespacePath "mutations" mutations acc₁
  (sortEntries acc₂.1, acc₂.2)

/-- Sort relation on namespaces (`a.name.localeCompare(b.name)`). -/
def nsLe (a b : NamespaceInfo) : Prop := a.name ≤ b.name

instance : DecidableRel nsLe := fun a b => inferInstanceAs (Decidable (a.name ≤ b.name))

/-- The `namespaces.sort((a, b) => a.name.localeCompare(b.name))` of
`collectNamespaces`. -/
def sortNamespaces (l : List NamespaceInfo) : List NamespaceInfo :=
  List.insertionSort nsLe l

/-- One directory entry of the scanned root: name plus the
`entry.isDirectory()` flag. -/
structure DirEntry where
  name : String
  isDirectory : Bool
deriving DecidableEq, Repr

/-- The namespace-selection filter of `collectNamespaces` (and of
`ensureBaseStructure`): directories only, skipping hidden names and
`node_modules`. -/
def keepNamespaceEntry (e : DirEntry) : Bool :=
  e.isDirectory && !strStartsWith e.name "." && e.name ≠ "node_modules"

/-- `FileSystemReader.collectNamespaces`, parameterized by the directory
listing of the root and by the per-namespace operations
(`ops name path` models `await this.collectOperations(name, path)`). -/
def collectNamespaces (resolvedDir : String) (entries : List DirEntry)
    (ops : String → String → List (String × OperationBucket)) : List NamespaceInfo :=
  sortNamespaces ((entries.filter keepNamespaceEntry).map (fun e =>
    { name := e.name
      absolutePath := joinPath resolvedDir e.name
      operations := ops e.name (joinPath resolvedDir e.name) }))

/-! ## Renderer (`CodeGenerator.ts`) -/

/-- A single-quoted key-tuple segment, e.g. `'domains'`. -/
def quoteSeg (s : String) : String := "\x27" ++ s ++ "\x27"

/-- `CodeGenerator.renderOperationFunction`. `propertyName` is the string
`'query'` or `'mutation'`; `includeKindSegment` injects the literal third
key segment. JS truthiness of `paramName`/`preferredType` is modelled by
comparison with the empty string. -/
def renderOperationFunction (propertyName : String) (op : OperationInfo)
    (nspace operationName : String) (indentLevel : Nat) (includeKindSegment : Bool) :
    List String :=
  let indent := String.join (List.replicate indentLevel "  ")
  let property := formatPropertyKey propertyName
  if propertyName = "mutation" then
    let keySegments := [quoteSeg nspace, quoteSeg operationName]
      ++ (if includeKindSegment then [quoteSeg "mutation"] else [])
    [indent ++ property ++ ": [" ++ joinSep ", " keySegments ++ "] as const,"]
  else
    let pn := match op.paramName with
      | some p => p
      | none => if op.hasParams then "args" else ""
    let signature := if pn ≠ "" then
        match op.argsTypeName with
        | some t => if t ≠ "" then pn ++ ": " ++ t else pn
        | none => pn
      else ""
    let fnSignature := if signature ≠ "" then "(" ++ signature ++ ")" else "()"
    let keySegments := [quoteSeg nspace, quoteSeg operationName]
      ++ (if includeKindSegment then [quoteSeg "query"] else [])
      ++ (if pn ≠ "" then [pn] else [])
    [indent ++ property ++ ": " ++ fnSignature ++ " => ["
      ++ joinSep ", " keySegments ++ "] as const,"]

/-- `CodeGenerator.renderNamespaceEntry`. -/
def renderNamespaceEntry (name nspace : String) (bucket : OperationBucket) : List String :=
  let property := formatPropertyKey name
  let hasQuery := bucket.query.isSome
  let hasMutation := bucket.mutation.isSome
  if !hasQuery && !hasMutation then []
  else
    let includeKindSegment := hasQuery && hasMutation
    ["  " ++ property ++ ": \x7b"]
    ++ (match bucket.query with
        | some q => renderOperationFunction "query" q nspace name 2 includeKindSegment
        | none => [])
    ++ (match bucket.mutation with
        | some m => renderOperationFunction "mutation" m nspace name 2 includeKindSegment
        | none => [])
    ++ ["  \x7d,"]

/-- The JS `Set.add` on an insertion-ordered string set. -/
def addToSet (s : List String) (x : String) : List String :=
  if x ∈ s then s else s ++ [x]

/-- The `importMap` update of `renderNamespaceQueryKeys`:
`importMap.set(importPath, (importMap.get(importPath) ?? new Set()).add(name))`. -/
def importMapInsert : List (String × List String) → String → String →
    List (String × List String)
  | [], ip, t => [(ip, [t])]
  | e :: rest, ip, t =>
    if e.1 = ip then (e.1, addToSet e.2 t) :: rest
    else e :: importMapInsert rest ip t

/-- Sort relation on import-map entries (`localeCompare` on the import
paths). -/
def importLe (a b : String × List String) : Prop := a.1 ≤ b.1

instance : DecidableRel importLe := fun a b => inferInstanceAs (Decidable (a.1 ≤ b.1))

/-- The plain string sort used for type names inside one import line and
for the import lines of the root manifest (`[...names].sort()`,
`importLines.sort()`). -/
def sortStrings (l : List String) : List String :=
  List.insertionSort (· ≤ ·) l

/-- `CodeGenerator.renderNamespaceQueryKeys`. -/
def renderNamespaceQueryKeys (ns : NamespaceInfo) : String :=
  let queryKeysFile := joinPath ns.absolutePath "queryKeys.ts"
  let importMap := ns.operations.foldl (fun m e =>
    (bucketValues e.2).foldl (fun m op =>
      match op.argsTypeName with
      | none => m
      | some t => importMapInsert m (normalizeImportPath queryKeysFile op.filePath) t) m) []
  let importLines := (List.insertionSort importLe importMap).map (fun e =>
    "import type \x7b " ++ joinSep ", " (sortStrings e.2)
      ++ " \x7d from \x27" ++ e.1 ++ "\x27")
  let entryLines := ns.operations.foldl (fun acc e =>
    acc ++ renderNamespaceEntry e.1 ns.name e.2) []
  joinNl ((if importLines.isEmpty then [] else importLines ++ [""])
    ++ ["export const queryKeys = \x7b"]
    ++ entryLines
    ++ ["\x7d as const", ""])

/-- `CodeGenerator.renderRootQueryKeys`. -/
def renderRootQueryKeys (namespaces : List NamespaceInfo) : String :=
  let imports := namespaces.map (fun ns =>
    "import \x7b queryKeys as " ++ toCamelCase ns.name
      ++ "QueryKeys \x7d from \x27./" ++ ns.name ++ "/queryKeys\x27")
  joinNl ((if imports.isEmpty then [] else imports ++ [""])
    ++ ["export const queryKeys = \x7b"]
    ++ namespaces.map (fun ns =>
        "  " ++ formatPropertyKey ns.name ++ ": " ++ toCamelCase ns.name ++ "QueryKeys,")
    ++ ["\x7d as const", ""])

/-- `CodeGenerator.renderNXQueryFile`. -/
def renderNXQueryFile (namespaces : List NamespaceInfo) : String :=
  let importLines := (namespaces.map (fun ns =>
    (ns.operations.map (fun e =>
      (bucketValues e.2).map (fun op =>
        "import \x7b " ++ op.factoryName ++ " as " ++ op.aliasName
          ++ " \x7d from \x27" ++ op.importPath ++ "\x27"))).flatten)).flatten
  let body := ["export const NXQuery = \x7b"]
    ++ (namespaces.map (fun ns =>
        ["  " ++ formatPropertyKey ns.name ++ ": \x7b"]
        ++ (ns.operations.map (fun e =>
            let property := formatPropertyKey e.1
            match e.2.query, e.2.mutation with
            | some q, some m =>
              ["    " ++ property ++ ": \x7b",
               "      query: " ++ q.aliasName ++ ",",
               "      mutation: " ++ m.aliasName ++ ",",
               "    \x7d,"]
            | some q, none => ["    " ++ property ++ ": " ++ q.aliasName ++ ","]
            | none, some m => ["    " ++ property ++ ": " ++ m.aliasName ++ ","]
            | none, none => [])).flatten
        ++ ["  \x7d,"])).flatten
    ++ ["\x7d as const", ""]
  joinNl ((if importLines.isEmpty then [] else sortStrings importLines ++ [""]) ++ body)

/-! ## Artifact writer (`FileSystemWriter.ts`) -/

/-- The file system: a partial map from resolved paths to file contents. -/
def FS := String → Option String

/-- Overwrite one file. -/
def fsWrite (fs : FS) (p c : String) : FS :=
  fun q => if q = p then some c else fs q

/-- `FileSystemWriter.writeFileIfChanged`: read, compare, write only on
change. The returned flag records whether a write happened. -/
def writeFileIfChanged (fs : FS) (target content : String) : FS × Bool :=
  match fs target with
  | some existing => if existing = content then (fs, false) else (fsWrite fs target content, true)
  | none => (fsWrite fs target content, true)

/-- `FileSystemWriter.ensureFile`: write the fallback only when the file
does not exist. -/
def ensureFile (fs : FS) (target fallback : String) : FS × Bool :=
  match fs target with
  | some _ => (fs, false)
  | none => (fsWrite fs target fallback, true)

/-- Run a sequence of `ensureFile` calls. -/
def runEnsures : List (String × String) → FS → FS × Bool
  | [], fs => (fs, false)
  | e :: rest, fs =>
    let r := ensureFile fs e.1 e.2
    let rr := runEnsures rest r.1
    (rr.1, r.2 || rr.2)

/-- Run a sequence of `writeFileIfChanged` calls. -/
def runWrites : List (String × String) → FS → FS × Bool
  | [], fs => (fs, false)
  | e :: rest, fs =>
    let r := writeFileIfChanged fs e.1 e.2
    let rr := runWrites rest r.1
    (rr.1, r.2 || rr.2)

/-- The `ensureFile` targets of one pass: `ensureBaseStructure` seeds the
root manifest and root key table, and `ensureNamespaceSkeleton` seeds each
namespace's key table. -/
def ensureList (resolvedDir : String) (tree : List NamespaceInfo) : List (String × String) :=
  (joinPath resolvedDir "index.ts", "export const NXQuery = \x7b\x7d\n")
  :: (joinPath resolvedDir "keys.ts", "export const queryKeys = \x7b\x7d\n")
  :: tree.map (fun ns => (joinPath ns.absolutePath "queryKeys.ts",
       "export const queryKeys = \x7b\x7d\n"))

/-- The `writeFileIfChanged` targets of one pass, in the order issued by
`syncProject`: each namespace key table, then the root key table, then the
root manifest. -/
def writeList (resolvedDir : String) (tree : List NamespaceInfo) : List (String × String) :=
  tree.map (fun ns => (joinPath ns.absolutePath "queryKeys.ts", renderNamespaceQueryKeys ns))
  ++ [(joinPath resolvedDir "keys.ts", renderRootQueryKeys tree),
      (joinPath resolvedDir "index.ts", renderNXQueryFile tree)]

/-- One full regeneration pass of `NXQueryPlugin.syncProject` over a fixed
tree snapshot: `ensureBaseStructure`, then the three write groups. The flag
records whether any file was written. -/
def runPass (resolvedDir : String) (tree : List NamespaceInfo) (fs : FS) : FS × Bool :=
  let e := runEnsures (ensureList resolvedDir tree) fs
  let w := runWrites (writeList resolvedDir tree) e.1
  (w.1, e.2 || w.2)

/-! ## Template seeder (`FileSystemWriter.maybeSeedOperationFile`) -/

/-- `FileSystemWriter.buildQueryTemplate`. -/
def buildQueryTemplate (nspace fileName : String) : String :=
  let namespacePascal := toPascalCase nspace
  let filePascal := toPascalCase fileName
  let argsType := namespacePascal ++ filePascal ++ "Args"
  let returnType := namespacePascal ++ filePascal ++ "Return"
  let accessor := buildPropertyAccessor "queryKeys" fileName ++ ".query"
  joinNl [
    "import \x7b queryOptions \x7d from \x27@tanstack/react-query\x27",
    "import \x7b z \x7d from \x27zod\x27",
    "import \x7b queryKeys \x7d from \x27../queryKeys\x27",
    "",
    "/***** TYPE DEFINITIONS *****/",
    "export type " ++ argsType ++ " = z.infer<typeof argsSchema>",
    "export type " ++ returnType ++ " = z.infer<typeof responseSchema>",
    "",
    "/***** SCHEMAS *****/",
    "export const argsSchema = z.never()",
    "export const responseSchema = z.never()",
    "",
    "/***** CONSTS *****/",
    "export const endpoint = \x27/todo\x27",
    "",
    "/***** QUERY OPTIONS *****/",
    "export const createQueryOptions = (rawArgs: " ++ argsType ++ ") => \x7b",
    "  const args = argsSchema.parse(rawArgs)",
    "",
    "  return queryOptions(\x7b",
    "    queryKey: " ++ accessor ++ "(args),",
    "    queryFn: async () => \x7b",
    "      const response = await fetch(endpoint)",
    "      const json = await response.json()",
    "      const parsed = responseSchema.parse(json)",
    "      return parsed as " ++ returnType,
    "    \x7d,",
    "  \x7d)",
    "\x7d",
    ""]

/-- `FileSystemWriter.buildMutationTemplate`. -/
def buildMutationTemplate (nspace fileName : String) : String :=
  let namespacePascal := toPascalCase nspace
  let filePascal := toPascalCase fileName
  let argsType := namespacePascal ++ filePascal ++ "Args"
  let returnType := namespacePascal ++ filePascal ++ "Return"
  let accessor := buildPropertyAccessor "queryKeys" fileName ++ ".mutation"
  joinNl [
    "import \x7b mutationOptions \x7d from \x27@tanstack/react-query\x27",
    "import \x7b z \x7d from \x27zod\x27",
    "import \x7b queryKeys \x7d from \x27../queryKeys\x27",
    "",
    "/***** TYPE DEFINITIONS *****/",
    "export type " ++ argsType ++ " = z.infer<typeof argsSchema>",
    "export type " ++ returnType ++ " = z.infer<typeof responseSchema>",
    "",
    "/***** SCHEMAS *****/",
    "export const argsSchema = z.never()",
    "export const responseSchema = z.never()",
    "",
    "/***** CONSTS *****/",
    "export const endpoint = \x27/todo\x27",
    "",
    "/***** MUTATION OPTIONS *****/",
    "export const createMutationOptions = () => \x7b",
    "  return mutationOptions(\x7b",
    "    mutationKey: " ++ accessor ++ ",",
    "    mutationFn: async (rawArgs: " ++ argsType ++ ") => \x7b",
    "      const args = argsSchema.parse(rawArgs)",
    "      const response = await fetch(endpoint, \x7b",
    "        method: \x27POST\x27,",
    "        headers: \x7b \x27Content-Type\x27: \x27application/json\x27 \x7d,",
    "        body: JSON.stringify(args),",
    "      \x7d)",
    "      const json = await response.json()",
    "      const parsed = responseSchema.parse(json)",
    "      return parsed as " ++ returnType,
    "    \x7d,",
    "  \x7d)",
    "\x7d",
    ""]

/-- The seed target reconstructed by `maybeSeedOperationFile`
(`path.join(this.resolvedDir, namespace, scope, filename)`). -/
def seedTarget (resolvedDir filePath : String) : String :=
  let segments := splitPath (pathRelative resolvedDir filePath)
  joinPath (joinPath (joinPath resolvedDir (segments.getD 0 ""))
    (segments.getD 1 "")) (segments.getD 2 "")

/-- `FileSystemWriter.maybeSeedOperationFile`: seed a boilerplate body into
a present, whitespace-empty `.ts` file exactly three segments under the
scanned root whose middle segment is `queries` or `mutations`; otherwise do
nothing. -/
def maybeSeedOperationFile (resolvedDir : String) (fs : FS) (filePath : String) : FS :=
  if !strEndsWith filePath ".ts" then fs
  else
    let segments := splitPath (pathRelative resolvedDir filePath)
    if segments.length ≠ 3 then fs
    else
      let nspace := segments.getD 0 ""
      let scope := segments.getD 1 ""
      let filename := segments.getD 2 ""
      if scope = "queries" ∨ scope = "mutations" then
        let absPath := seedTarget resolvedDir filePath
        match fs absPath with
        | none => fs
        | some existing =>
          if (jsTrim existing).length > 0 then fs
          else
            let baseName := if strEndsWith filename ".ts" then strDropRight filename 3 else filename
            let template := if scope = "queries" then buildQueryTemplate nspace baseName
              else buildMutationTemplate nspace baseName
            fsWrite fs absPath template
      else fs

/-! ## Change filter (`FileWatcher.shouldProcess`) -/

/-- `FileWatcher.isInDir` (also `NXQueryPlugin.isInDir` in the monolithic
variant): the resolved file equals the resolved root or starts with
root-plus-separator. -/
def isInDir (file resolvedDir : String) : Bool :=
  file = resolvedDir || strStartsWith file (resolvedDir ++ "/")

/-- `FileWatcher.isManagedArtifact`: the root manifest, the root key table,
or any two-segment path whose second segment is the namespace key table. -/
def isManagedArtifact (resolvedDir file : String) : Bool :=
  let relative := pathRelative resolvedDir file
  if relative = "index.ts" || relative = "keys.ts" then true
  else
    let segments := splitPath relative
    segments.length = 2 && segments.getD 1 "" = "queryKeys.ts"

/-- `FileWatcher.shouldProcess`: the gate every add/change/unlink
notification passes before it may trigger seeding or a regeneration
pass. -/
def shouldProcess (resolvedDir file : String) : Bool :=
  isInDir file resolvedDir && !isManagedArtifact resolvedDir file

/-- The filter as the specification words it: the resolved path lies under
the resolved scan root, and the root-relative path is not the root manifest
`index.ts`, not the root key table `keys.ts`, and not a two-segment path
whose second segment is `queryKeys.ts`. -/
def specProcessed (resolvedDir file : String) : Prop :=
  (file = resolvedDir ∨ strStartsWith file (resolvedDir ++ "/") = true)
  ∧ pathRelative resolvedDir file ≠ "index.ts"
  ∧ pathRelative resolvedDir file ≠ "keys.ts"
  ∧ ¬((splitPath (pathRelative resolvedDir file)).length = 2
      ∧ (splitPath (pathRelative resolvedDir file)).getD 1 "" = "queryKeys.ts")

/-! ## Change scheduler (`NXQueryPlugin.scheduleSync` / `runSync`)

The scheduler state couples the `syncPending` flag with the promise chain.
`queued` counts passes attached to the chain that have not started yet;
`running` marks a pass currently executing; `fs` is an abstract version
counter of the on-disk tree; `snapshot` is the tree version an in-flight
pass reads (each pass recomputes the whole snapshot from disk); `output` is
the tree version reflected by the generated artifacts. -/

structure SyncState where
  syncPending : Bool
  queued : Nat
  running : Bool
  fs : Nat
  snapshot : Nat
  output : Nat
deriving DecidableEq, Repr

/-- The initial scheduler state (`syncPending = false`, empty chain). -/
def initSync : SyncState :=
  { syncPending := false, queued := 0, running := false, fs := 0, snapshot := 0, output := 0 }

/-- Events driving the scheduler: a qualifying change notification with its
event payload (`scheduleSync`), an external edit of the tree, the chain
starting the queued pass, and the pass completing. -/
inductive SyncEvent where
  | notify (payload : Nat)
  | extWrite (v : Nat)
  | start
  | finish
deriving DecidableEq, Repr

/-- One step of the scheduler.
`notify` is `scheduleSync`: if `syncPending` is already set the call
returns immediately; otherwise it sets the flag and chains one pass.
`start` is the chain reaching the queued pass: the pass begins by
recomputing the snapshot from disk (`collectNamespaces`), not from any
event payload. `finish` is the `finally` of `runSync`: the artifacts now
reflect the snapshot and `syncPending` is cleared. -/
def schedStep : SyncEvent → SyncState → SyncState
  | .notify _, s =>
    if s.syncPending then s
    else { s with syncPending := true, queued := s.queued + 1 }
  | .extWrite v, s => { s with fs := v }
  | .start, s =>
    if s.queued ≠ 0 ∧ s.running = false then
      { s with queued := s.queued - 1, running := true, snapshot := s.fs }
    else s
  | .finish, s =>
    if s.running then
      { s with running := false, syncPending := false, output := s.snapshot }
    else s

/-- Run a list of events from a state. -/
def runEvts (es : List SyncEvent) (s : SyncState) : SyncState :=
  es.foldl (fun t e => schedStep e t) s

/-- States reachable from the initial state. -/
def reachableSync (s : SyncState) : Prop :=
  ∃ es : List SyncEvent, runEvts es initSync = s

/-- The scheduler invariant: `syncPending` holds exactly while a pass is
queued or running, a running pass leaves the chain empty, and there is
never more than one pass in the system. -/
def syncInv (s : SyncState) : Prop :=
  (s.syncPending = (decide (s.queued ≠ 0) || s.running))
  ∧ (s.running = true → s.queued = 0)
  ∧ s.queued ≤ 1

/-- The model of `runSync: try { syncProject } catch { report } finally
{ syncPending = false }`, as an `Except`-valued computation: `syncResult`
is the outcome of `syncProject`; the return value is the list of logged
errors together with the `syncPending` value after the `finally`. That the
result is always `.ok` is the content of the `catch`. -/
def runSyncE (syncResult : Except String Unit) : Except String (List String × Bool) :=
  match syncResult with
  | .ok _ => .ok ([], false)
  | .error e => .ok (["[nxquery] sync failed. Fix the reported issue and save again. " ++ e], false)

/-- One link of the chain built by `scheduleSync`:
`this.syncChain.catch(report).then(() => this.runSync()).catch(swallow)`.
`prev` is the settlement of the previous chain; `syncResult` the outcome of
this link's `syncProject`. -/
def chainLink (prev syncResult : Except String Unit) : Except String Unit :=
  let _recovered : Except String Unit := match prev with
    | .error _ => .ok ()
    | .ok _ => .ok ()
  match runSyncE syncResult with
  | .ok _ => .ok ()
  | .error _ => .ok ()

/-- Chain-execution timestamps. `startAt i` / `finishAt i` are the times
pass `i` starts and settles. `.then` chaining gives exactly the local
ordering: a pass finishes after it starts, and pass `i + 1` starts only
after pass `i` has settled. -/
def chainConsistent (startAt finishAt : Nat → Nat) (n : Nat) : Prop :=
  (∀ i, i < n → startAt i < finishAt i)
  ∧ (∀ i, i + 1 < n → finishAt i < startAt (i + 1))

/-! ## Concrete fixtures (used to instantiate the theorems) -/

/-- A sample query descriptor, as extracted from
`domains/queries/example.ts`. -/
def sampleQuery : OperationInfo :=
  { kind := .query
    nspace := "domains"
    name := "example"
    filePath := "/r/domains/queries/example.ts"
    importPath := "./domains/queries/example"
    factoryName := "createQueryOptions"
    aliasName := "createDomainsExampleQueryOptions"
    paramName := some "rawArgs"
    paramType := some "DomainsExampleArgs"
    hasParams := true
    argsTypeName := some "DomainsExampleArgs" }

/-- A sample mutation descriptor with the same base name. -/
def sampleMutation : OperationInfo :=
  { kind := .mutation
    nspace := "domains"
    name := "example"
    filePath := "/r/domains/mutations/example.ts"
    importPath := "./domains/mutations/example"
    factoryName := "createMutationOptions"
    aliasName := "createDomainsExampleMutationOptions"
    paramName := none
    paramType := none
    hasParams := false
    argsTypeName := none }

/-- A sample parse function: every query file extracts to `sampleQuery`,
every mutation file to `sampleMutation`. -/
def samplePf : OperationKind → String → Option OperationInfo × List String :=
  fun k _ => match k with
  | .query => (some sampleQuery, [])
  | .mutation => (some sampleMutation, [])

/-! ## Scheduler lemmas -/

/-- The initial state satisfies the scheduler invariant. -/
theorem syncInv_init : syncInv initSync := by
  refine ⟨rfl, ?_, ?_⟩ <;> simp [initSync]

/-- Every scheduler step preserves the invariant. -/
theorem syncInv_step (e : SyncEvent) (s : SyncState) (h : syncInv s) :
    syncInv (schedStep e s) := by
  obtain ⟨h1, h2, h3⟩ := h
  cases e with
  | notify p =>
    by_cases hp : s.syncPending
    · have : schedStep (SyncEvent.notify p) s = s := by simp [schedStep, hp]
      rw [this]
      exact ⟨h1, h2, h3⟩
    · have hp' : s.syncPending = false := by simpa using hp
      have hfalse : (decide (s.queued ≠ 0) || s.running) = false := by
        rw [← h1]; exact hp'
      simp only [Bool.or_eq_false_iff, decide_eq_false_iff_not, not_not] at hfalse
      obtain ⟨hq0, hrf⟩ := hfalse
      simp [schedStep, hp', syncInv, hq0, hrf]
  | extWrite v =>
    exact ⟨h1, h2, h3⟩
  | start =>
    by_cases hc : s.queued ≠ 0 ∧ s.running = false
    · have hpend : s.syncPending = true := by
        rw [h1]; simp [hc.1]
      simp [schedStep, hc, syncInv, hpend]
      omega
    · simp [schedStep, hc]
      exact ⟨h1, h2, h3⟩
  | finish =>
    by_cases hr : s.running
    · have hq0 : s.queued = 0 := h2 hr
      simp [schedStep, hr, syncInv, hq0]
    · simp [schedStep, hr]
      exact ⟨h1, h2, h3⟩

/-- Running any event list preserves the invariant. -/
theorem syncInv_runEvts (es : List SyncEvent) (s : SyncState) (h : syncInv s) :
    syncInv (runEvts es s) := by
  induction es generalizing s with
  | nil => exact h
  | cons e rest ih => exact ih _ (syncInv_step e s h)

/-- Every reachable state satisfies the invariant. -/
theorem syncInv_reachable (s : SyncState) (h : reachableSync s) : syncInv s := by
  obtain ⟨es, rfl⟩ := h
  exact syncInv_runEvts es initSync syncInv_init

/-- With `syncPending` set, `scheduleSync` is a no-op. -/
theorem schedStep_notify_pending (p : Nat) (s : SyncState) (h : s.syncPending = true) :
    schedStep (SyncEvent.notify p) s = s := by
  simp [schedStep, h]

/-! ## Claim theorems: scheduler -/

/-- C1: while a pass is scheduled or running, a qualifying change
notification enqueues no new pass — a burst of `N` notifications leaves the
scheduler state untouched, so at most one trailing pass (here: zero new
passes) results, never `N`; moreover `scheduleSync` ignores the event
payload entirely, and a starting pass recomputes its snapshot from the
on-disk tree (`t.fs`), so the single coalesced pass observes the latest
tree state. -/
theorem scheduler_coalesces_bursts (es : List SyncEvent) (N a b : Nat) (s : SyncState)
    (hs : runEvts es initSync = s) (hbusy : s.queued ≠ 0 ∨ s.running = true) :
    runEvts (List.replicate N (SyncEvent.notify a)) s = s
    ∧ (∀ t : SyncState, schedStep (SyncEvent.notify a) t = schedStep (SyncEvent.notify b) t)
    ∧ (∀ t : SyncState, t.queued ≠ 0 → t.running = false →
        (schedStep SyncEvent.start t).snapshot = t.fs) := by
  have hinv : syncInv s := syncInv_reachable s ⟨es, hs⟩
  have hpend : s.syncPending = true := by
    rw [hinv.1]
    rcases hbusy with hq | hr
    · simp [hq]
    · simp [hr]
  refine ⟨?_, ?_, ?_⟩
  · induction N with
    | zero => rfl
    | succ n ih =>
      simpa [List.replicate_succ, runEvts, schedStep_notify_pending a s hpend] using ih
  · intro t
    simp [schedStep]
  · intro t hq hr
    simp [schedStep, hq, hr]

/-- Witness for C1: after one notification the scheduler is busy
(`queued = 1`), and a burst of three further notifications with arbitrary
payloads leaves the state unchanged. -/
theorem scheduler_coalesces_bursts_witness :
    runEvts (List.replicate 3 (SyncEvent.notify 5)) (runEvts [SyncEvent.notify 0] initSync)
      = runEvts [SyncEvent.notify 0] initSync :=
  (scheduler_coalesces_bursts [SyncEvent.notify 0] 3 5 7
    (runEvts [SyncEvent.notify 0] initSync) rfl (by decide)).1

/-- C2: passes on the chain never overlap — under the `.then`-chaining
ordering, every earlier pass has settled strictly before any later pass
starts — and a throwing pass is caught at the chain boundary: `runSync`
always returns normally with `syncPending` cleared (logging on failure),
and a whole chain link settles fulfilled regardless of the previous link's
or its own pass's outcome, so subsequently scheduled passes always run. -/
theorem passes_serialized_and_failures_isolated (startAt finishAt : Nat → Nat) (n : Nat)
    (h : chainConsistent startAt finishAt n) :
    (∀ i j, i < j → j < n → finishAt i < startAt j)
    ∧ (∀ r : Except String Unit, ∃ logs, runSyncE r = Except.ok (logs, false))
    ∧ (∀ prev r : Except String Unit, chainLink prev r = Except.ok ()) := by
  refine ⟨?_, ?_, ?_⟩
  · have key : ∀ j, j < n → ∀ i, i < j → finishAt i < startAt j := by
      intro j
      induction j with
      | zero => intro _ i hi; omega
      | succ m ih =>
        intro hmn i hi
        have hfm : finishAt m < startAt (m + 1) := h.2 m hmn
        rcases Nat.lt_succ_iff_lt_or_eq.mp hi with hlt | rfl
        · have h1 : finishAt i < startAt m := ih (by omega) i hlt
          have h2 : startAt m < finishAt m := h.1 m (by omega)
          omega
        · exact hfm
    intro i j hij hjn
    exact key j hjn i hij
  · intro r
    cases r with
    | ok _ => exact ⟨[], rfl⟩
    | error e => exact ⟨_, rfl⟩
  · intro prev r
    cases prev <;> cases r <;> rfl

/-- Witness for C2: a concrete two-pass chain with timestamps 0 < 1 < 2 < 3
is chain-consistent, and the theorem yields that pass 0 settles before pass
1 starts. -/
theorem passes_serialized_witness : (2 * 0 + 1 : Nat) < 2 * 1 :=
  (passes_serialized_and_failures_isolated (fun i => 2 * i) (fun i => 2 * i + 1) 2
    ⟨by intro i _; show 2 * i < 2 * i + 1; omega,
     by intro i _; show 2 * i + 1 < 2 * (i + 1); omega⟩).1 0 1 (by decide) (by decide)

/-! ## Claim theorems: change filter -/

/-- C4: a change notification is processed — may trigger seeding or a
regeneration pass — if and only if its resolved path lies under the
resolved scan root (or is the root itself) and its root-relative path is
none of the generated artifacts: not `index.ts`, not `keys.ts`, and not a
two-segment path ending in `queryKeys.ts`; every other notification fails
`shouldProcess` and is dropped before reaching the scheduler. -/
theorem shouldProcess_iff_spec (resolvedDir file : String) :
    shouldProcess resolvedDir file = true ↔ specProcessed resolvedDir file := by
  unfold shouldProcess specProcessed isInDir isManagedArtifact
  by_cases h1 : pathRelative resolvedDir file = "index.ts" <;>
    by_cases h2 : pathRelative resolvedDir file = "keys.ts" <;>
      (simp [h1, h2, and_assoc]; try tauto)

/-! ## Claim theorems: extractor selection -/

/-- C6: the extractor selects, among the exported function-valued bindings,
one named exactly `createQueryOptions` or `createMutationOptions` whenever
such a binding exists, and otherwise the first exported function-valued
binding in declaration order (`collectCandidates` lists them in declaration
order); the recorded argument type name is the first exported type alias or
interface, in declaration order, whose identifier ends in `Args`, and is
absent when none exists. -/
theorem factory_selection_and_args_type (prog : Program) :
    ((∃ d ∈ collectCandidates prog, isCanonical d = true) →
      ∃ d, findOperationFactory prog = some d ∧ isCanonical d = true)
    ∧ ((∀ d ∈ collectCandidates prog, isCanonical d = false) →
      findOperationFactory prog = (collectCandidates prog).head?)
    ∧ findArgsTypeName prog = (exportedTypeNames prog).find? (fun nm => strEndsWith nm "Args")
    ∧ ((∀ nm ∈ exportedTypeNames prog, strEndsWith nm "Args" = false) →
      findArgsTypeName prog = none) := by
  have hfind : findArgsTypeName prog
      = (exportedTypeNames prog).find? (fun nm => strEndsWith nm "Args") := by
    induction prog with
    | nil => rfl
    | cons node rest ih =>
      cases node with
      | exportTypeDecl o =>
        cases o with
        | none => simpa [findArgsTypeName, exportedTypeNames] using ih
        | some nm =>
          by_cases h : strEndsWith nm "Args" <;>
            simp [findArgsTypeName, exportedTypeNames, List.find?, h, ih]
      | exportVarDecl ds => simpa [findArgsTypeName, exportedTypeNames] using ih
      | exportOther => simpa [findArgsTypeName, exportedTypeNames] using ih
      | plainNode => simpa [findArgsTypeName, exportedTypeNames] using ih
  refine ⟨?_, ?_, hfind, ?_⟩
  · rintro ⟨d, hmem, hcan⟩
    cases hf : (collectCandidates prog).find? isCanonical with
    | none => exact absurd hcan (List.find?_eq_none.mp hf d hmem)
    | some x =>
      exact ⟨x, by simp [findOperationFactory, hf], List.find?_some hf⟩
  · intro hall
    cases hf : (collectCandidates prog).find? isCanonical with
    | none => simp [findOperationFactory, hf]
    | some x =>
      have := hall x (List.mem_of_find?_eq_some hf)
      have := List.find?_some hf
      simp_all
  · intro hall
    rw [hfind]
    exact List.find?_eq_none.mpr (fun nm h => by simp [hall nm h])

/-- Witness for C6: a program with a non-canonical and a canonical
function-valued export selects a canonical one; a program with only a
non-canonical export selects the first candidate; a program whose only
exported type name does not end in `Args` records no argument type. -/
theorem factory_selection_witness :
    (∃ d, findOperationFactory
        [TopNode.exportVarDecl
          [{ idName := some "getThing", init := some .arrowFn, params := [] },
           { idName := some "createQueryOptions", init := some .arrowFn, params := [] }],
         TopNode.exportTypeDecl (some "FooArgs")] = some d ∧ isCanonical d = true)
    ∧ findOperationFactory
        [TopNode.exportVarDecl [{ idName := some "getThing", init := some .arrowFn, params := [] }],
         TopNode.exportTypeDecl (some "FooBar")]
      = (collectCandidates
          [TopNode.exportVarDecl [{ idName := some "getThing", init := some .arrowFn, params := [] }],
           TopNode.exportTypeDecl (some "FooBar")]).head?
    ∧ findArgsTypeName
        [TopNode.exportVarDecl [{ idName := some "getThing", init := some .arrowFn, params := [] }],
         TopNode.exportTypeDecl (some "FooBar")] = none :=
  ⟨(factory_selection_and_args_type _).1
      ⟨{ idName := some "createQueryOptions", init := some .arrowFn, params := [] },
        by decide, by decide⟩,
   (factory_selection_and_args_type _).2.1 (by decide),
   (factory_selection_and_args_type _).2.2.2 (by decide)⟩

/-! ## Claim theorems: alias construction -/

/-- No string ending in the query-alias suffix equals one ending in the
mutation-alias suffix. -/
theorem append_qsuffix_ne (x y : String) : x ++ "QueryOptions" ≠ y ++ "MutationOptions" := by
  intro h
  have hd := congrArg String.data h
  rw [String.data_append, String.data_append] at hd
  have hrev := congrArg List.reverse hd
  rw [List.reverse_append, List.reverse_append] at hrev
  have ht := congrArg (List.take 12) hrev
  rw [List.take_append_of_le_length (by decide), List.take_append_of_le_length (by decide)] at ht
  exact absurd ht (by decide)

/-- Right-cancellation for string concatenation. -/
theorem str_append_cancel_right (s x y : String) (h : x ++ s = y ++ s) : x = y := by
  have hd := congrArg String.data h
  rw [String.data_append, String.data_append] at hd
  have h2 := List.append_cancel_right hd
  cases x; cases y
  exact congrArg String.mk h2

/-- Left-cancellation for string concatenation. -/
theorem str_append_cancel_left (p x y : String) (h : p ++ x = p ++ y) : x = y := by
  have hd := congrArg String.data h
  rw [String.data_append, String.data_append] at hd
  have h2 := List.append_cancel_left hd
  cases x; cases y
  exact congrArg String.mk h2

/-- C8 counterexample: `buildAlias` is not collision-free on distinct
(namespace, file base name, kind) triples — the PascalCase normalization
collapses the base names `bar-baz` and `barBaz` to the same alias within
one namespace and kind. -/
theorem buildAlias_collision :
    buildAlias "domains" "createQueryOptions" OperationKind.query "bar-baz.ts"
      = buildAlias "domains" "createQueryOptions" OperationKind.query "barBaz.ts"
    ∧ basenameTs "bar-baz.ts" ≠ basenameTs "barBaz.ts" := by
  constructor
  · decide
  · decide

/-- C8 (amended): `buildAlias` yields distinct identifiers for triples with
distinct kinds, and — for equal canonical-name status — for triples whose
concatenated PascalCase images of namespace and file base name differ; it
is not injective on raw triples (see the counterexample). -/
theorem buildAlias_distinct (ns₁ ns₂ e₁ e₂ f₁ f₂ : String) (k₁ k₂ : OperationKind) :
    (k₁ ≠ k₂ → buildAlias ns₁ e₁ k₁ f₁ ≠ buildAlias ns₂ e₂ k₂ f₂)
    ∧ (((e₁ = "createQueryOptions" ∨ e₁ = "createMutationOptions")
          ↔ (e₂ = "createQueryOptions" ∨ e₂ = "createMutationOptions")) →
       toPascalCase ns₁ ++ toPascalCase (basenameTs f₁)
          ≠ toPascalCase ns₂ ++ toPascalCase (basenameTs f₂) →
       buildAlias ns₁ e₁ k₁ f₁ ≠ buildAlias ns₂ e₂ k₂ f₂) := by
  constructor
  · intro hk
    cases k₁ <;> cases k₂
    · exact absurd rfl hk
    · simp only [buildAlias]
      exact append_qsuffix_ne _ _
    · simp only [buildAlias]
      exact fun h => append_qsuffix_ne _ _ h.symm
    · exact absurd rfl hk
  · intro hcan hne
    cases k₁ <;> cases k₂
    case query.mutation =>
      simp only [buildAlias]
      exact append_qsuffix_ne _ _
    case mutation.query =>
      simp only [buildAlias]
      exact fun h => append_qsuffix_ne _ _ h.symm
    all_goals
      simp only [buildAlias]
      intro h
      have h1 := str_append_cancel_right _ _ _ h
      have hpre : (if e₁ = "createQueryOptions" ∨ e₁ = "createMutationOptions"
            then "create" else "")
          = (if e₂ = "createQueryOptions" ∨ e₂ = "createMutationOptions"
            then "create" else "") := by
        by_cases hc : e₁ = "createQueryOptions" ∨ e₁ = "createMutationOptions"
        · rw [if_pos hc, if_pos (hcan.mp hc)]
        · rw [if_neg hc, if_neg (fun hh => hc (hcan.mpr hh))]
      rw [← hpre] at h1
      rw [String.append_assoc, String.append_assoc] at h1
      exact hne (str_append_cancel_left _ _ _ h1)

/-- Witness for C8 (amended): concretely, the query and mutation aliases of
one operation differ, and operations whose PascalCase namespace+name
concatenations differ get distinct aliases. -/
theorem buildAlias_distinct_witness :
    buildAlias "domains" "fn" OperationKind.query "a.ts"
      ≠ buildAlias "domains" "fn" OperationKind.mutation "a.ts"
    ∧ buildAlias "alpha" "fn" OperationKind.query "a.ts"
      ≠ buildAlias "beta" "fn" OperationKind.query "b.ts" :=
  ⟨(buildAlias_distinct "domains" "domains" "fn" "fn" "a.ts" "a.ts"
      OperationKind.query OperationKind.mutation).1 (by decide),
   (buildAlias_distinct "alpha" "beta" "fn" "fn" "a.ts" "b.ts"
      OperationKind.query OperationKind.query).2 Iff.rfl (by decide)⟩

/-! ## Bucket-map lemmas -/

/-- A bucket with at least one kind populated. -/
def bucketNonempty (b : OperationBucket) : Prop :=
  b.query.isSome ∨ b.mutation.isSome

/-- The keys of a bucket map. -/
def mapKeys (m : List (String × OperationBucket)) : List String :=
  m.map Prod.fst

/-- Distinct keys. -/
def nodupKeys (m : List (String × OperationBucket)) : Prop :=
  (mapKeys m).Nodup

/-- `setKind` always populates the written kind. -/
theorem setKind_nonempty (k : OperationKind) (i : OperationInfo) (b : OperationBucket) :
    bucketNonempty (setKind k i b) := by
  cases k <;> simp [setKind, bucketNonempty]

/-- Overwriting the same kind with the same descriptor twice is the same as
once. -/
theorem setKind_idem (k : OperationKind) (i : OperationInfo) (b : OperationBucket) :
    setKind k i (setKind k i b) = setKind k i b := by
  cases k <;> simp [setKind]

/-- Characterization of `lookupOp` after `insertOp`. -/
theorem lookupOp_insertOp (m : List (String × OperationBucket)) (k : OperationKind)
    (i : OperationInfo) (n : String) :
    lookupOp (insertOp m k i) n
      = if n = i.name then some (setKind k i ((lookupOp m i.name).getD emptyBucket))
        else lookupOp m n := by
  induction m with
  | nil =>
    by_cases hn : n = i.name <;> simp [insertOp, lookupOp, hn, eq_comm]
  | cons e rest ih =>
    by_cases hn : n = i.name
    · subst hn
      by_cases he : e.1 = i.name
      · simp [insertOp, lookupOp, he]
      · simp [insertOp, lookupOp, he, ih]
    · have hni : i.name ≠ n := fun hh => hn hh.symm
      by_cases he : e.1 = i.name
      · have hen : e.1 ≠ n := by rw [he]; exact hni
        simp [insertOp, lookupOp, he, hen, hn, hni]
      · by_cases hen : e.1 = n
        · simp [insertOp, lookupOp, he, hen, hn]
        · simp [insertOp, lookupOp, he, hen, hn, ih]

/-- `lookupOp` misses exactly the keys not in the map. -/
theorem lookupOp_eq_none_iff (m : List (String × OperationBucket)) (n : String) :
    lookupOp m n = none ↔ n ∉ mapKeys m := by
  induction m with
  | nil => simp [lookupOp, mapKeys]
  | cons e rest ih =>
    by_cases he : e.1 = n <;> simp [lookupOp, mapKeys, he, ih, eq_comm (a := n)]

/-- A hit of `lookupOp` is a member of the map. -/
theorem mem_of_lookupOp (m : List (String × OperationBucket)) (n : String)
    (b : OperationBucket) (h : lookupOp m n = some b) : (n, b) ∈ m := by
  induction m with
  | nil => simp [lookupOp] at h
  | cons e rest ih =>
    by_cases he : e.1 = n
    · simp [lookupOp, he] at h
      exact List.mem_cons.mpr (Or.inl (Prod.ext he.symm h.symm))
    · simp [lookupOp, he] at h
      exact List.mem_cons_of_mem _ (ih h)

/-- With distinct keys, membership determines `lookupOp`. -/
theorem lookupOp_of_mem (m : List (String × OperationBucket)) (n : String)
    (b : OperationBucket) (hnd : nodupKeys m) (h : (n, b) ∈ m) :
    lookupOp m n = some b := by
  induction m with
  | nil => simp at h
  | cons e rest ih =>
    rcases List.mem_cons.mp h with rfl | hmem
    · simp [lookupOp]
    · have hnd' : nodupKeys rest := (List.nodup_cons.mp hnd).2
      have hn : n ∈ mapKeys rest := List.mem_map_of_mem Prod.fst hmem
      have hne : e.1 ≠ n := by
        intro hh
        exact (List.nodup_cons.mp hnd).1 (hh ▸ hn)
      simp [lookupOp, hne, ih hnd' hmem]

/-- The keys after an insert: unchanged if the key was present, appended
otherwise. -/
theorem mapKeys_insertOp (m : List (String × OperationBucket)) (k : OperationKind)
    (i : OperationInfo) :
    mapKeys (insertOp m k i)
      = if i.name ∈ mapKeys m then mapKeys m else mapKeys m ++ [i.name] := by
  induction m with
  | nil => simp [insertOp, mapKeys]
  | cons e rest ih =>
    by_cases he : e.1 = i.name
    · simp [insertOp, mapKeys, he]
    · have hne : i.name ≠ e.1 := fun hh => he hh.symm
      simp only [insertOp, if_neg he, mapKeys, List.map_cons]
      rw [show List.map Prod.fst (insertOp rest k i) = _ from ih]
      by_cases hm : i.name ∈ List.map Prod.fst rest
      · simp [mapKeys, hm, hne]
      · simp [mapKeys, hm, hne]

/-- `insertOp` preserves key distinctness. -/
theorem nodupKeys_insertOp (m : List (String × OperationBucket)) (k : OperationKind)
    (i : OperationInfo) (h : nodupKeys m) : nodupKeys (insertOp m k i) := by
  unfold nodupKeys
  rw [mapKeys_insertOp]
  by_cases hm : i.name ∈ mapKeys m
  · simpa [hm] using h
  · simp only [hm, if_false]
    refine List.Nodup.append h (List.nodup_singleton _) ?_
    intro x hx hh
    simp only [List.mem_singleton] at hh
    exact hm (hh ▸ hx)

/-- Every entry of `insertOp` is an old entry or carries the inserted
descriptor. -/
theorem mem_insertOp (m : List (String × OperationBucket)) (k : OperationKind)
    (i : OperationInfo) (e : String × OperationBucket) (h : e ∈ insertOp m k i) :
    e ∈ m ∨ ∃ b, e = (i.name, setKind k i b) := by
  induction m with
  | nil =>
    simp [insertOp] at h
    exact Or.inr ⟨emptyBucket, h⟩
  | cons hd rest ih =>
    by_cases hh : hd.1 = i.name
    · simp [insertOp, hh] at h
      rcases h with rfl | hmem
      · exact Or.inr ⟨hd.2, rfl⟩
      · exact Or.inl (List.mem_cons_of_mem _ hmem)
    · simp [insertOp, hh] at h
      rcases h with rfl | hmem
      · exact Or.inl (List.mem_cons_self _ _)
      · rcases ih hmem with hm | hb
        · exact Or.inl (List.mem_cons_of_mem _ hm)
        · exact Or.inr hb

/-- Permutations with distinct keys preserve `lookupOp`. -/
theorem lookupOp_perm (m₁ m₂ : List (String × OperationBucket)) (n : String)
    (hp : m₁.Perm m₂) (hnd : nodupKeys m₁) : lookupOp m₁ n = lookupOp m₂ n := by
  have hnd₂ : nodupKeys m₂ := (hp.map Prod.fst).nodup hnd
  cases h₁ : lookupOp m₁ n with
  | some b =>
    exact (lookupOp_of_mem m₂ n b hnd₂ (hp.mem_iff.mp (mem_of_lookupOp m₁ n b h₁))).symm
  | none =>
    cases h₂ : lookupOp m₂ n with
    | none => rfl
    | some b =>
      have := hp.mem_iff.mpr (mem_of_lookupOp m₂ n b h₂)
      have hk : n ∈ mapKeys m₁ := List.mem_map_of_mem Prod.fst this
      exact absurd hk ((lookupOp_eq_none_iff m₁ n).mp h₁)

/-- `sortEntries` is a permutation of its input. -/
theorem sortEntries_perm (m : List (String × OperationBucket)) : (sortEntries m).Perm m :=
  List.perm_insertionSort entryLe m

/-! ## Tree-walker fold lemmas -/

/-- The walker fold preserves key distinctness. -/
theorem visitFold_nodup (pf : OperationKind → String → Option OperationInfo × List String)
    (k : OperationKind) (nsPath folder : String) (files : List String)
    (acc : List (String × OperationBucket) × List String) (h : nodupKeys acc.1) :
    nodupKeys (visitFold pf k nsPath folder files acc).1 := by
  induction files generalizing acc with
  | nil => exact h
  | cons g rest ih =>
    by_cases hts : strEndsWith g ".ts" = true
    · rcases hp : pf k (joinPath (joinPath nsPath folder) g) with ⟨o, ds⟩
      cases o with
      | some info =>
        simp only [visitFold, hts, if_true, hp]
        exact ih _ (nodupKeys_insertOp _ _ _ h)
      | none =>
        simp only [visitFold, hts, if_true, hp]
        exact ih _ h
    · simp only [visitFold, hts, if_false]
      exact ih _ h

/-- Every bucket the walker fold produces has at least one kind populated
(provided the incoming accumulator does). -/
theorem visitFold_nonempty (pf : OperationKind → String → Option OperationInfo × List String)
    (k : OperationKind) (nsPath folder : String) (files : List String)
    (acc : List (String × OperationBucket) × List String)
    (h : ∀ e ∈ acc.1, bucketNonempty e.2) :
    ∀ e ∈ (visitFold pf k nsPath folder files acc).1, bucketNonempty e.2 := by
  induction files generalizing acc with
  | nil => exact h
  | cons g rest ih =>
    by_cases hts : strEndsWith g ".ts" = true
    · rcases hp : pf k (joinPath (joinPath nsPath folder) g) with ⟨o, ds⟩
      cases o with
      | some info =>
        simp only [visitFold, hts, if_true, hp]
        refine ih _ ?_
        intro e he
        rcases mem_insertOp _ _ _ _ he with hm | ⟨b, rfl⟩
        · exact h e hm
        · exact setKind_nonempty k info b
      | none =>
        simp only [visitFold, hts, if_true, hp]
        exact ih _ h
    · simp only [visitFold, hts, if_false]
      exact ih _ h

/-- Files that never produce a descriptor named `n` leave the bucket at `n`
untouched. -/
theorem visitFold_lookup_untouched
    (pf : OperationKind → String → Option OperationInfo × List String)
    (k : OperationKind) (nsPath folder : String) (files : List String)
    (acc : List (String × OperationBucket) × List String) (n : String)
    (hnone : ∀ g ∈ files, strEndsWith g ".ts" = true →
      ∀ j, (pf k (joinPath (joinPath nsPath folder) g)).1 = some j → j.name ≠ n) :
    lookupOp (visitFold pf k nsPath folder files acc).1 n = lookupOp acc.1 n := by
  induction files generalizing acc with
  | nil => rfl
  | cons g rest ih =>
    have hnr : ∀ g ∈ rest, strEndsWith g ".ts" = true →
        ∀ j, (pf k (joinPath (joinPath nsPath folder) g)).1 = some j → j.name ≠ n :=
      fun g hg => hnone g (List.mem_cons_of_mem _ hg)
    by_cases hts : strEndsWith g ".ts" = true
    · rcases hp : pf k (joinPath (joinPath nsPath folder) g) with ⟨o, ds⟩
      cases o with
      | some info =>
        have hnn : info.name ≠ n :=
          hnone g (List.mem_cons_self _ _) hts info (by rw [hp])
        simp only [visitFold, hts, if_true, hp]
        rw [ih _ hnr, lookupOp_insertOp]
        simp only [if_neg (fun hh : n = info.name => hnn hh.symm)]
      | none =>
        simp only [visitFold, hts, if_true, hp]
        exact ih _ hnr
    · simp only [visitFold, hts, if_false]
      exact ih _ hnr

/-- Once the bucket at `i.name` holds `setKind k i b₀`, further files of the
same visit that can only re-produce `i` under that name keep it intact. -/
theorem visitFold_lookup_keeps
    (pf : OperationKind → String → Option OperationInfo × List String)
    (k : OperationKind) (nsPath folder : String) (files : List String)
    (acc : List (String × OperationBucket) × List String) (i : OperationInfo)
    (b₀ : OperationBucket)
    (hstab : lookupOp acc.1 i.name = some (setKind k i b₀))
    (hsame : ∀ g ∈ files, strEndsWith g ".ts" = true →
      ∀ j, (pf k (joinPath (joinPath nsPath folder) g)).1 = some j → j.name = i.name → j = i) :
    lookupOp (visitFold pf k nsPath folder files acc).1 i.name = some (setKind k i b₀) := by
  induction files generalizing acc with
  | nil => exact hstab
  | cons g rest ih =>
    have hsr : ∀ g ∈ rest, strEndsWith g ".ts" = true →
        ∀ j, (pf k (joinPath (joinPath nsPath folder) g)).1 = some j → j.name = i.name → j = i :=
      fun g hg => hsame g (List.mem_cons_of_mem _ hg)
    by_cases hts : strEndsWith g ".ts" = true
    · rcases hp : pf k (joinPath (joinPath nsPath folder) g) with ⟨o, ds⟩
      cases o with
      | some j =>
        by_cases hn : j.name = i.name
        · have hji : j = i := hsame g (List.mem_cons_self _ _) hts j (by rw [hp]) hn
          subst hji
          simp only [visitFold, hts, if_true, hp]
          refine ih _ ?_ hsr
          rw [lookupOp_insertOp]
          simp [hstab, setKind_idem]
        · simp only [visitFold, hts, if_true, hp]
          refine ih _ ?_ hsr
          rw [lookupOp_insertOp]
          simp only [if_neg (fun hh : i.name = j.name => hn hh.symm)]
          exact hstab
      | none =>
        simp only [visitFold, hts, if_true, hp]
        exact ih _ hstab hsr
    · simp only [visitFold, hts, if_false]
      exact ih _ hstab hsr

/-- If some `.ts` file of the visit produces descriptor `i`, and every
descriptor produced under the name `i.name` by this visit is `i` itself,
then the visited bucket at `i.name` holds `i` in position `k`, merged into
whatever bucket the accumulator already had under that name. -/
theorem visitFold_lookup_hit
    (pf : OperationKind → String → Option OperationInfo × List String)
    (k : OperationKind) (nsPath folder : String) (files : List String)
    (acc : List (String × OperationBucket) × List String) (i : OperationInfo) (f : String)
    (hf : f ∈ files) (hts : strEndsWith f ".ts" = true)
    (hpf : (pf k (joinPath (joinPath nsPath folder) f)).1 = some i)
    (hsame : ∀ g ∈ files, strEndsWith g ".ts" = true →
      ∀ j, (pf k (joinPath (joinPath nsPath folder) g)).1 = some j → j.name = i.name → j = i) :
    lookupOp (visitFold pf k nsPath folder files acc).1 i.name
      = some (setKind k i ((lookupOp acc.1 i.name).getD emptyBucket)) := by
  induction files generalizing acc with
  | nil => exact absurd hf (List.not_mem_nil f)
  | cons g rest ih =>
    have hsr : ∀ g ∈ rest, strEndsWith g ".ts" = true →
        ∀ j, (pf k (joinPath (joinPath nsPath folder) g)).1 = some j → j.name = i.name → j = i :=
      fun g hg => hsame g (List.mem_cons_of_mem _ hg)
    by_cases htsg : strEndsWith g ".ts" = true
    · rcases hp : pf k (joinPath (joinPath nsPath folder) g) with ⟨o, ds⟩
      cases o with
      | some j =>
        by_cases hn : j.name = i.name
        · have hji : j = i := hsame g (List.mem_cons_self _ _) htsg j (by rw [hp]) hn
          subst hji
          simp only [visitFold, htsg, if_true, hp]
          refine visitFold_lookup_keeps pf k nsPath folder rest _ j _ ?_ hsr
          rw [lookupOp_insertOp]
          simp
        · have hgf : g ≠ f := by
            intro hh
            subst hh
            rw [hp] at hpf
            simp at hpf
            exact hn (by rw [hpf])
          have hfr : f ∈ rest := by
            rcases List.mem_cons.mp hf with hh | hh
            · exact absurd hh.symm hgf
            · exact hh
          simp only [visitFold, htsg, if_true, hp]
          rw [ih _ hfr hsr, lookupOp_insertOp]
          simp only [if_neg (fun hh : i.name = j.name => hn hh.symm)]
      | none =>
        have hgf : g ≠ f := by
          intro hh
          subst hh
          rw [hp] at hpf
          simp at hpf
        have hfr : f ∈ rest := by
          rcases List.mem_cons.mp hf with hh | hh
          · exact absurd hh.symm hgf
          · exact hh
        simp only [visitFold, htsg, if_true, hp]
        exact ih _ hfr hsr
    · have hgf : g ≠ f := by
        intro hh
        subst hh
        exact htsg hts
      have hfr : f ∈ rest := by
        rcases List.mem_cons.mp hf with hh | hh
        · exact absurd hh.symm hgf
        · exact hh
      simp only [visitFold, htsg, if_false]
      exact ih _ hfr hsr

/-- `extractParamName` yields a name exactly when a first parameter
exists (any non-identifier pattern falls back to the placeholder). -/
theorem extractParamName_isSome (o : Option Param) :
    (extractParamName o).isSome = o.isSome := by
  cases o with
  | none => rfl
  | some pm =>
    simp only [extractParamName]
    split <;> rfl

/-! ## Claim theorems: walker invariants and merge/render behavior -/

/-- C10: for any parse function, every entry of the operations map returned
by `collectOperations` has its query field or its mutation field defined —
an entry is only created when a file yields a non-null descriptor — and
consequently the empty-bucket branch of `renderNamespaceEntry`, which would
emit no lines, is unreachable: the rendered entry of every such bucket is
nonempty. -/
theorem collectOperations_buckets_nonempty
    (pf : OperationKind → String → Option OperationInfo × List String)
    (namespacePath nsName : String) (queries mutations : List String)
    (e : String × OperationBucket)
    (he : e ∈ (collectOperations pf namespacePath queries mutations).1) :
    bucketNonempty e.2 ∧ renderNamespaceEntry e.1 nsName e.2 ≠ [] := by
  have hmem : e ∈ (visitFold pf .mutation namespacePath "mutations" mutations
      (visitFold pf .query namespacePath "queries" queries ([], []))).1 := by
    have hperm := sortEntries_perm (visitFold pf .mutation namespacePath "mutations" mutations
      (visitFold pf .query namespacePath "queries" queries ([], []))).1
    exact hperm.mem_iff.mp he
  have hne : bucketNonempty e.2 := by
    refine visitFold_nonempty pf .mutation namespacePath "mutations" mutations _ ?_ e hmem
    refine visitFold_nonempty pf .query namespacePath "queries" queries ([], []) ?_
    intro x hx
    simp at hx
  refine ⟨hne, ?_⟩
  rcases e with ⟨nm, b⟩
  rcases hbq : b.query with _ | q <;> rcases hbm : b.mutation with _ | m
  · exfalso
    rcases hne with h | h <;> simp [hbq, hbm] at h
  · simp [renderNamespaceEntry, hbq, hbm]
  · simp [renderNamespaceEntry, hbq, hbm]
  · simp [renderNamespaceEntry, hbq, hbm]

/-- Witness for C10: the singleton map produced from one query file has a
nonempty bucket whose rendered entry is nonempty. -/
theorem collectOperations_buckets_nonempty_witness :
    bucketNonempty ({ query := some sampleQuery, mutation := none } : OperationBucket)
    ∧ renderNamespaceEntry "example" "domains"
        { query := some sampleQuery, mutation := none } ≠ [] :=
  collectOperations_buckets_nonempty samplePf "/r/domains" "domains" ["example.ts"] []
    ("example", { query := some sampleQuery, mutation := none }) (by decide)

/-- C5: a query file and a mutation file with the same base name under one
namespace merge into a single bucket entry carrying both descriptors; a
dual-kind bucket renders a nested entry whose `query`/`mutation` accessors
each carry the literal third key segment; a single-kind bucket omits that
third segment; the mutation accessor is always a fixed tuple with no
parameter; and the query accessor is a function that appends its parameter
as the trailing tuple segment exactly when the factory has a first
parameter (for query descriptors produced by `parseOperationFile`,
`paramName` is present exactly when `hasParams` holds). -/
theorem merge_and_render
    (pf : OperationKind → String → Option OperationInfo × List String)
    (namespacePath : String) (queries mutations : List String)
    (i₁ i₂ : OperationInfo) (qf mf : String)
    (hqf : qf ∈ queries) (hqts : strEndsWith qf ".ts" = true)
    (hpq : (pf .query (joinPath (joinPath namespacePath "queries") qf)).1 = some i₁)
    (huq : ∀ g ∈ queries, strEndsWith g ".ts" = true →
      ∀ j, (pf .query (joinPath (joinPath namespacePath "queries") g)).1 = some j →
        j.name = i₁.name → j = i₁)
    (hmf : mf ∈ mutations) (hmts : strEndsWith mf ".ts" = true)
    (hpm : (pf .mutation (joinPath (joinPath namespacePath "mutations") mf)).1 = some i₂)
    (hum : ∀ g ∈ mutations, strEndsWith g ".ts" = true →
      ∀ j, (pf .mutation (joinPath (joinPath namespacePath "mutations") g)).1 = some j →
        j.name = i₂.name → j = i₂)
    (hnm : i₂.name = i₁.name) :
    lookupOp (collectOperations pf namespacePath queries mutations).1 i₁.name
      = some { query := some i₁, mutation := some i₂ }
    ∧ (∀ (nm ns : String) (q m : OperationInfo),
        renderNamespaceEntry nm ns { query := some q, mutation := some m }
          = ["  " ++ formatPropertyKey nm ++ ": \x7b"]
            ++ renderOperationFunction "query" q ns nm 2 true
            ++ renderOperationFunction "mutation" m ns nm 2 true
            ++ ["  \x7d,"])
    ∧ (∀ (nm ns : String) (q : OperationInfo),
        renderNamespaceEntry nm ns { query := some q, mutation := none }
          = ["  " ++ formatPropertyKey nm ++ ": \x7b"]
            ++ renderOperationFunction "query" q ns nm 2 false
            ++ ["  \x7d,"])
    ∧ (∀ (nm ns : String) (m : OperationInfo),
        renderNamespaceEntry nm ns { query := none, mutation := some m }
          = ["  " ++ formatPropertyKey nm ++ ": \x7b"]
            ++ renderOperationFunction "mutation" m ns nm 2 false
            ++ ["  \x7d,"])
    ∧ (∀ (m : OperationInfo) (ns nm : String),
        renderOperationFunction "mutation" m ns nm 2 true
          = ["    mutation: [\x27" ++ ns ++ "\x27, \x27" ++ nm ++ "\x27, \x27mutation\x27] as const,"]
        ∧ renderOperationFunction "mutation" m ns nm 2 false
          = ["    mutation: [\x27" ++ ns ++ "\x27, \x27" ++ nm ++ "\x27] as const,"])
    ∧ (∀ (q : OperationInfo) (ns nm p t : String), q.paramName = some p → p ≠ "" →
        q.argsTypeName = some t → t ≠ "" →
        renderOperationFunction "query" q ns nm 2 true
          = ["    query: (" ++ p ++ ": " ++ t ++ ") => [\x27" ++ ns ++ "\x27, \x27" ++ nm
              ++ "\x27, \x27query\x27, " ++ p ++ "] as const,"]
        ∧ renderOperationFunction "query" q ns nm 2 false
          = ["    query: (" ++ p ++ ": " ++ t ++ ") => [\x27" ++ ns ++ "\x27, \x27" ++ nm
              ++ "\x27, " ++ p ++ "] as const,"])
    ∧ (∀ (q : OperationInfo) (ns nm : String), q.paramName = none → q.hasParams = false →
        renderOperationFunction "query" q ns nm 2 true
          = ["    query: () => [\x27" ++ ns ++ "\x27, \x27" ++ nm ++ "\x27, \x27query\x27] as const,"]
        ∧ renderOperationFunction "query" q ns nm 2 false
          = ["    query: () => [\x27" ++ ns ++ "\x27, \x27" ++ nm ++ "\x27] as const,"])
    ∧ (∀ (dir ns fp : String) (rr : Option String) (pr : ParseOutcome)
          (info : OperationInfo) (ds : List String),
        parseOperationFile dir ns .query fp rr pr = (some info, ds) →
        info.paramName.isSome = info.hasParams) := by
  refine ⟨?_, ?_, ?_, ?_, ?_, ?_, ?_, ?_⟩
  · -- the merge itself
    have h₁ : lookupOp (visitFold pf .query namespacePath "queries" queries ([], [])).1 i₁.name
        = some (setKind .query i₁ emptyBucket) := by
      have := visitFold_lookup_hit pf .query namespacePath "queries" queries ([], []) i₁ qf
        hqf hqts hpq huq
      simpa [lookupOp] using this
    have h₂ : lookupOp (visitFold pf .mutation namespacePath "mutations" mutations
          (visitFold pf .query namespacePath "queries" queries ([], []))).1 i₂.name
        = some (setKind .mutation i₂ ((lookupOp
            (visitFold pf .query namespacePath "queries" queries ([], [])).1 i₂.name).getD
              emptyBucket)) :=
      visitFold_lookup_hit pf .mutation namespacePath "mutations" mutations _ i₂ mf
        hmf hmts hpm hum
    rw [hnm, h₁] at h₂
    have hnd : nodupKeys (visitFold pf .mutation namespacePath "mutations" mutations
        (visitFold pf .query namespacePath "queries" queries ([], []))).1 := by
      refine visitFold_nodup pf .mutation namespacePath "mutations" mutations _ ?_
      refine visitFold_nodup pf .query namespacePath "queries" queries ([], []) ?_
      simp [nodupKeys, mapKeys]
    have hnds : nodupKeys (sortEntries (visitFold pf .mutation namespacePath "mutations"
        mutations (visitFold pf .query namespacePath "queries" queries ([], []))).1) :=
      (((sortEntries_perm _).map Prod.fst).symm.nodup) hnd
    have hs := lookupOp_perm _ _ i₁.name (sortEntries_perm _) hnds
    show lookupOp (sortEntries _) i₁.name = _
    rw [hs, h₂]
    simp [setKind, emptyBucket]
  · intro nm ns q m
    simp only [renderNamespaceEntry]
    rfl
  · intro nm ns q
    simp only [renderNamespaceEntry]
    rfl
  · intro nm ns m
    simp only [renderNamespaceEntry]
    rfl
  · intro m ns nm
    constructor <;>
      (simp only [renderOperationFunction, quoteSeg, joinSep, String.append_assoc]; rfl)
  · intro q ns nm p t hp hpne hat hatne
    have hsig : ¬(p ++ (": " ++ t) = "") := by
      intro hh
      have hd := congrArg String.data hh
      rw [String.data_append, String.data_append] at hd
      simp at hd
    constructor <;>
      (simp only [renderOperationFunction, hp, hat, ne_eq, hpne, hatne, hsig,
        not_false_eq_true, if_true, ite_true, quoteSeg, joinSep, String.append_assoc,
        (show ¬(("query" : String) = "mutation") from by decide), if_false, ite_false]; rfl)
  · intro q ns nm hp hhp
    constructor <;>
      (simp only [renderOperationFunction, hp, hhp, quoteSeg, joinSep,
        String.append_assoc]; rfl)
  · intro dir ns fp rr pr info ds h
    cases rr with
    | none => simp [parseOperationFile] at h
    | some code =>
      cases pr with
      | threw e => simp [parseOperationFile] at h
      | result errs prog =>
        by_cases herr : errs.isEmpty
        · simp only [parseOperationFile, herr, if_true] at h
          split at h
          · simp at h
          · split at h
            · simp at h
            · split at h
              · injection h with h1 h2
                injection h1 with h3
                subst h3
                simp [extractParamName_isSome]
              · simp at h
        · simp [parseOperationFile, herr] at h

/-- Witness for C5: the two `example.ts` files of the `domains` namespace
merge into one dual-kind bucket. -/
theorem merge_and_render_witness :
    lookupOp (collectOperations samplePf "/r/domains" ["example.ts"] ["example.ts"]).1 "example"
      = some { query := some sampleQuery, mutation := some sampleMutation } :=
  (merge_and_render samplePf "/r/domains" ["example.ts"] ["example.ts"]
    sampleQuery sampleMutation "example.ts" "example.ts"
    (by decide) (by decide) rfl
    (fun g hg hts j hj hname => (Option.some.inj hj).symm)
    (by decide) (by decide) rfl
    (fun g hg hts j hj hname => (Option.some.inj hj).symm)
    rfl).1

/-! ## Claim theorems: parse-failure policy -/

/-- C7 counterexample: a file whose parse result carries two parser errors
emits two diagnostics in the single pass that parses it — not exactly one —
while still contributing no descriptor. The claim's "exactly once per pass"
fails on multi-error files. -/
theorem parse_diag_not_exactly_once :
    ((parseOperationFile "/r" "domains" OperationKind.query "/r/domains/queries/bad.ts"
        (some "let = ;") (ParseOutcome.result ["Unexpected token", "Expected expression"] [])).2).length
      ≠ 1
    ∧ (parseOperationFile "/r" "domains" OperationKind.query "/r/domains/queries/bad.ts"
        (some "let = ;") (ParseOutcome.result ["Unexpected token", "Expected expression"] [])).1
      = none := by
  constructor
  · decide
  · decide

/-- C7 (amended): a file that fails to parse contributes no descriptor and
emits one diagnostic identifying the file per parser error (at least one,
rather than exactly one) in the pass; a thrown parse emits exactly one;
a well-formed file with no qualifying exported function-valued binding
yields `null` with no diagnostic; and every other file of the same pass is
still processed and appears in the collected operations map. -/
theorem parse_failure_isolated
    (dir ns fp code e : String) (kind : OperationKind) (errs : List String) (prog : Program)
    (pf : OperationKind → String → Option OperationInfo × List String)
    (nsPath fb fg : String) (i : OperationInfo) (dsb : List String) :
    (errs ≠ [] →
      parseOperationFile dir ns kind fp (some code) (ParseOutcome.result errs prog)
        = (none, errs.map (fun details => parseDiag fp details))
      ∧ (errs.map (fun details => parseDiag fp details)).length = errs.length
      ∧ errs.map (fun details => parseDiag fp details) ≠ [])
    ∧ parseOperationFile dir ns kind fp (some code) (ParseOutcome.threw e)
        = (none, [parseDiag fp e])
    ∧ (collectCandidates prog = [] →
      parseOperationFile dir ns kind fp (some code) (ParseOutcome.result [] prog) = (none, []))
    ∧ (strEndsWith fb ".ts" = true → strEndsWith fg ".ts" = true →
      pf .query (joinPath (joinPath nsPath "queries") fb) = (none, dsb) →
      pf .query (joinPath (joinPath nsPath "queries") fg) = (some i, []) →
      collectOperations pf nsPath [fb, fg] []
        = ([(i.name, { query := some i, mutation := none })], dsb)) := by
  refine ⟨?_, ?_, ?_, ?_⟩
  · intro herr
    have hne : errs.isEmpty = false := by
      cases errs with
      | nil => exact absurd rfl herr
      | cons a l => rfl
    refine ⟨?_, by simp, ?_⟩
    · simp [parseOperationFile, hne]
    · intro hh
      rw [List.map_eq_nil_iff] at hh
      exact herr hh
  · rfl
  · intro hc
    simp [parseOperationFile, findOperationFactory, hc, List.find?]
  · intro htsb htsg hb hg
    simp only [collectOperations, visitFold, htsb, htsg, if_true, hb, hg,
      List.nil_append, List.append_nil]
    simp [sortEntries, List.insertionSort, List.orderedInsert, insertOp, setKind, emptyBucket]

/-- Witness for C7 (amended): a two-error parse yields two diagnostics and
no descriptor; a candidate-free program yields a silent `null`; and a pass
over a broken and a well-formed query file still collects the well-formed
one while logging the broken one. -/
theorem parse_failure_isolated_witness :
    (parseOperationFile "/r" "domains" OperationKind.query "/r/x.ts" (some "c")
        (ParseOutcome.result ["e1", "e2"] [])
      = (none, ["e1", "e2"].map (fun details => parseDiag "/r/x.ts" details)))
    ∧ parseOperationFile "/r" "domains" OperationKind.query "/r/x.ts" (some "c")
        (ParseOutcome.threw "boom") = (none, [parseDiag "/r/x.ts" "boom"])
    ∧ parseOperationFile "/r" "domains" OperationKind.query "/r/x.ts" (some "c")
        (ParseOutcome.result [] []) = (none, [])
    ∧ collectOperations
        (fun _ fp => if strEndsWith fp "bad.ts" then (none, ["diag"]) else (some sampleQuery, []))
        "/r/domains" ["bad.ts", "good.ts"] []
      = ([("example", { query := some sampleQuery, mutation := none })], ["diag"]) := by
  have h := parse_failure_isolated "/r" "domains" "/r/x.ts" "c" "boom" OperationKind.query
    ["e1", "e2"] []
    (fun _ fp => if strEndsWith fp "bad.ts" then (none, ["diag"]) else (some sampleQuery, []))
    "/r/domains" "bad.ts" "good.ts" sampleQuery ["diag"]
  exact ⟨(h.1 (by decide)).1, h.2.1, h.2.2.1 rfl,
    h.2.2.2 (by decide) (by decide) (by decide) (by decide)⟩

/-! ## Artifact-writer lemmas -/

/-- After `writeFileIfChanged`, the target holds the content (whether or
not a write happened). -/
theorem writeFileIfChanged_target (fs : FS) (t c : String) :
    (writeFileIfChanged fs t c).1 t = some c := by
  unfold writeFileIfChanged
  cases h : fs t with
  | none => simp [fsWrite]
  | some ex =>
    by_cases he : ex = c
    · simp [he, h]
    · simp [he, fsWrite]

/-- `writeFileIfChanged` touches only its target. -/
theorem writeFileIfChanged_other (fs : FS) (t c q : String) (hq : q ≠ t) :
    (writeFileIfChanged fs t c).1 q = fs q := by
  unfold writeFileIfChanged
  cases h : fs t with
  | none => simp [fsWrite, hq]
  | some ex =>
    by_cases he : ex = c
    · simp [he]
    · simp [he, fsWrite, hq]

/-- `runWrites` leaves paths outside its target list untouched. -/
theorem runWrites_untouched (l : List (String × String)) (fs : FS) (q : String)
    (hq : q ∉ l.map Prod.fst) : (runWrites l fs).1 q = fs q := by
  induction l generalizing fs with
  | nil => rfl
  | cons e rest ih =>
    simp only [List.map_cons, List.mem_cons, not_or] at hq
    simp only [runWrites]
    rw [ih _ (by exact hq.2), writeFileIfChanged_other fs e.1 e.2 q hq.1]

/-- With pairwise-distinct targets, after `runWrites` every target holds
its content. -/
theorem runWrites_sets (l : List (String × String)) (fs : FS)
    (hdist : l.Pairwise (fun a b => a.1 ≠ b.1)) :
    ∀ e ∈ l, (runWrites l fs).1 e.1 = some e.2 := by
  induction l generalizing fs with
  | nil => intro e he; simp at he
  | cons hd rest ih =>
    intro e he
    rcases List.mem_cons.mp he with rfl | hmem
    · simp only [runWrites]
      rw [runWrites_untouched]
      · exact writeFileIfChanged_target fs e.1 e.2
      · intro hq
        rcases List.mem_map.mp hq with ⟨x, hx, hxe⟩
        exact (List.pairwise_cons.mp hdist).1 x hx hxe.symm
    · exact ih _ (List.pairwise_cons.mp hdist).2 e hmem

/-- When every target already holds its content, `runWrites` is a no-op
that performs no write. -/
theorem runWrites_noop (l : List (String × String)) (fs : FS)
    (h : ∀ e ∈ l, fs e.1 = some e.2) : runWrites l fs = (fs, false) := by
  induction l with
  | nil => rfl
  | cons hd rest ih =>
    have hh := h hd (List.mem_cons_self _ _)
    have hw : writeFileIfChanged fs hd.1 hd.2 = (fs, false) := by
      unfold writeFileIfChanged
      rw [hh]
      simp
    simp only [runWrites, hw]
    rw [ih (fun e he => h e (List.mem_cons_of_mem _ he))]
    rfl

/-- When every target exists, `runEnsures` is a no-op that performs no
write. -/
theorem runEnsures_noop (l : List (String × String)) (fs : FS)
    (h : ∀ e ∈ l, (fs e.1).isSome) : runEnsures l fs = (fs, false) := by
  induction l with
  | nil => rfl
  | cons hd rest ih =>
    have hh := h hd (List.mem_cons_self _ _)
    have he : ensureFile fs hd.1 hd.2 = (fs, false) := by
      unfold ensureFile
      cases hf : fs hd.1 with
      | none => rw [hf] at hh; simp at hh
      | some c => rfl
    simp only [runEnsures, he]
    rw [ih (fun e hm => h e (List.mem_cons_of_mem _ hm))]
    rfl

/-- Every `ensureFile` target of a pass is also a `writeFileIfChanged`
target of the same pass. -/
theorem ensureList_subset_writeList (resolvedDir : String) (tree : List NamespaceInfo) :
    ∀ e ∈ ensureList resolvedDir tree, ∃ c, (e.1, c) ∈ writeList resolvedDir tree := by
  intro e he
  simp only [ensureList, List.mem_cons, List.mem_map] at he
  rcases he with rfl | rfl | ⟨ns, hns, rfl⟩
  · exact ⟨renderNXQueryFile tree, by simp [writeList]⟩
  · exact ⟨renderRootQueryKeys tree, by simp [writeList]⟩
  · exact ⟨renderNamespaceQueryKeys ns, by
      simp only [writeList, List.mem_append, List.mem_map]
      exact Or.inl ⟨ns, hns, rfl⟩⟩

/-! ## Sort-invariance lemmas -/

instance : IsTotal NamespaceInfo nsLe := ⟨fun a b => le_total a.name b.name⟩

instance : IsTrans NamespaceInfo nsLe := ⟨fun _ _ _ hab hbc => le_trans hab hbc⟩

/-- Strict name order on namespaces. -/
def nsLt (a b : NamespaceInfo) : Prop := a.name < b.name

instance : IsAntisymm NamespaceInfo nsLt :=
  ⟨fun _ _ h1 h2 => absurd (lt_trans h1 h2) (lt_irrefl _)⟩

instance : IsTotal (String × OperationBucket) entryLe := ⟨fun a b => le_total a.1 b.1⟩

instance : IsTrans (String × OperationBucket) entryLe := ⟨fun _ _ _ hab hbc => le_trans hab hbc⟩

/-- Strict key order on bucket-map entries. -/
def entryLt (a b : String × OperationBucket) : Prop := a.1 < b.1

instance : IsAntisymm (String × OperationBucket) entryLt :=
  ⟨fun _ _ h1 h2 => absurd (lt_trans h1 h2) (lt_irrefl _)⟩

/-- The namespace sort is independent of enumeration order when namespace
names are pairwise distinct. -/
theorem sortNamespaces_perm_invariant (l₁ l₂ : List NamespaceInfo) (hp : l₁.Perm l₂)
    (hnd : l₁.Pairwise (fun a b => a.name ≠ b.name)) :
    sortNamespaces l₁ = sortNamespaces l₂ := by
  have hsymm : ∀ {x y : NamespaceInfo}, x.name ≠ y.name → y.name ≠ x.name :=
    fun h => h.symm
  have hperm : (sortNamespaces l₁).Perm (sortNamespaces l₂) :=
    (List.perm_insertionSort nsLe l₁).trans (hp.trans (List.perm_insertionSort nsLe l₂).symm)
  have hnd₁ : (sortNamespaces l₁).Pairwise (fun a b => a.name ≠ b.name) :=
    (List.Perm.pairwise_iff hsymm (List.perm_insertionSort nsLe l₁)).mpr hnd
  have hnd₂ : (sortNamespaces l₂).Pairwise (fun a b => a.name ≠ b.name) :=
    (List.Perm.pairwise_iff hsymm (List.perm_insertionSort nsLe l₂)).mpr
      ((List.Perm.pairwise_iff hsymm hp).mp hnd)
  have hs₁ : (sortNamespaces l₁).Pairwise nsLt :=
    ((List.sorted_insertionSort nsLe l₁).and hnd₁).imp
      (fun h => lt_of_le_of_ne h.1 h.2)
  have hs₂ : (sortNamespaces l₂).Pairwise nsLt :=
    ((List.sorted_insertionSort nsLe l₂).and hnd₂).imp
      (fun h => lt_of_le_of_ne h.1 h.2)
  exact List.eq_of_perm_of_sorted hperm hs₁ hs₂

/-- The operations-map sort is independent of enumeration order when keys
are pairwise distinct. -/
theorem sortEntries_perm_invariant (m₁ m₂ : List (String × OperationBucket)) (hp : m₁.Perm m₂)
    (hnd : m₁.Pairwise (fun a b => a.1 ≠ b.1)) :
    sortEntries m₁ = sortEntries m₂ := by
  have hsymm : ∀ {x y : String × OperationBucket}, x.1 ≠ y.1 → y.1 ≠ x.1 :=
    fun h => h.symm
  have hperm : (sortEntries m₁).Perm (sortEntries m₂) :=
    (List.perm_insertionSort entryLe m₁).trans (hp.trans (List.perm_insertionSort entryLe m₂).symm)
  have hnd₁ : (sortEntries m₁).Pairwise (fun a b => a.1 ≠ b.1) :=
    (List.Perm.pairwise_iff hsymm (List.perm_insertionSort entryLe m₁)).mpr hnd
  have hnd₂ : (sortEntries m₂).Pairwise (fun a b => a.1 ≠ b.1) :=
    (List.Perm.pairwise_iff hsymm (List.perm_insertionSort entryLe m₂)).mpr
      ((List.Perm.pairwise_iff hsymm hp).mp hnd)
  have hs₁ : (sortEntries m₁).Pairwise entryLt :=
    ((List.sorted_insertionSort entryLe m₁).and hnd₁).imp
      (fun h => lt_of_le_of_ne h.1 h.2)
  have hs₂ : (sortEntries m₂).Pairwise entryLt :=
    ((List.sorted_insertionSort entryLe m₂).and hnd₂).imp
      (fun h => lt_of_le_of_ne h.1 h.2)
  exact List.eq_of_perm_of_sorted hperm hs₁ hs₂

/-- The plain string sort (type names, import lines) is independent of
enumeration order. -/
theorem sortStrings_perm_invariant (s₁ s₂ : List String) (hp : s₁.Perm s₂) :
    sortStrings s₁ = sortStrings s₂ := by
  have hperm : (sortStrings s₁).Perm (sortStrings s₂) :=
    (List.perm_insertionSort _ s₁).trans (hp.trans (List.perm_insertionSort _ s₂).symm)
  exact List.eq_of_perm_of_sorted hperm
    (List.sorted_insertionSort _ s₁) (List.sorted_insertionSort _ s₂)

/-! ## Claim theorems: determinism -/

/-- C3: for a fixed tree snapshot, running a full regeneration pass twice
produces byte-identical artifacts — the second pass leaves the file system
unchanged and performs no file write — and the rendered output is
independent of file-system enumeration order because namespaces, operation
names, and the string-sorted material (import paths and type names) are
explicitly sorted: each sort yields the same result on any permutation of
its input (given the distinct keys the file system guarantees). -/
theorem pass_deterministic_and_order_independent
    (resolvedDir : String) (tree : List NamespaceInfo) (fs₀ : FS)
    (hdist : (writeList resolvedDir tree).Pairwise (fun a b => a.1 ≠ b.1)) :
    runPass resolvedDir tree ((runPass resolvedDir tree fs₀).1)
      = ((runPass resolvedDir tree fs₀).1, false)
    ∧ (∀ l₁ l₂ : List NamespaceInfo, l₁.Perm l₂ →
        l₁.Pairwise (fun a b => a.name ≠ b.name) → sortNamespaces l₁ = sortNamespaces l₂)
    ∧ (∀ m₁ m₂ : List (String × OperationBucket), m₁.Perm m₂ →
        m₁.Pairwise (fun a b => a.1 ≠ b.1) → sortEntries m₁ = sortEntries m₂)
    ∧ (∀ s₁ s₂ : List String, s₁.Perm s₂ → sortStrings s₁ = sortStrings s₂) := by
  refine ⟨?_, sortNamespaces_perm_invariant, sortEntries_perm_invariant,
    sortStrings_perm_invariant⟩
  have hfs₁ : ∀ e ∈ writeList resolvedDir tree,
      ((runPass resolvedDir tree fs₀).1) e.1 = some e.2 := by
    intro e he
    exact runWrites_sets (writeList resolvedDir tree) _ hdist e he
  have hens : runEnsures (ensureList resolvedDir tree) ((runPass resolvedDir tree fs₀).1)
      = ((runPass resolvedDir tree fs₀).1, false) := by
    refine runEnsures_noop _ _ ?_
    intro e he
    rcases ensureList_subset_writeList resolvedDir tree e he with ⟨c, hc⟩
    rw [hfs₁ (e.1, c) hc]
    rfl
  have hwr : runWrites (writeList resolvedDir tree) ((runPass resolvedDir tree fs₀).1)
      = ((runPass resolvedDir tree fs₀).1, false) :=
    runWrites_noop _ _ hfs₁
  show (let e := runEnsures (ensureList resolvedDir tree) ((runPass resolvedDir tree fs₀).1)
        let w := runWrites (writeList resolvedDir tree) e.1
        (w.1, e.2 || w.2)) = _
  rw [hens]
  simp only []
  rw [hwr]
  rfl

/-- Witness for C3: over an empty tree, the second pass changes nothing and
writes nothing, and each sort is permutation-invariant on concrete
inputs. -/
theorem pass_deterministic_witness :
    runPass "/r" [] ((runPass "/r" [] (fun _ => none)).1)
      = ((runPass "/r" [] (fun _ => none)).1, false)
    ∧ sortNamespaces [] = sortNamespaces []
    ∧ sortStrings ["alpha"] = sortStrings ["alpha"] := by
  have h := pass_deterministic_and_order_independent "/r" [] (fun _ => none) (by decide)
  exact ⟨h.1, h.2.1 [] [] (List.Perm.refl _) (by simp),
    h.2.2.2 ["alpha"] ["alpha"] (List.Perm.refl _)⟩

/-! ## Template-seeder lemmas -/

/-- A string whose first character is not whitespace has a nonempty
trim. -/
theorem jsTrim_pos_of_head (s : String) (c : Char) (rest : List Char)
    (hs : s.data = c :: rest) (hc : jsWs c = false) : 0 < (jsTrim s).length := by
  rw [String.length, jsTrim]
  simp only [hs, List.dropWhile_cons, hc, if_false]
  rw [List.length_reverse]
  refine List.length_pos.mpr ?_
  intro hnil
  have hmem : c ∈ (c :: rest).reverse := by simp
  have := List.dropWhile_eq_nil_iff.mp hnil c hmem
  rw [hc] at this
  exact Bool.false_ne_true this

/-- The query template starts with the letter `i` (its first line is an
import). -/
theorem buildQueryTemplate_head (nspace fileName : String) :
    (buildQueryTemplate nspace fileName).data.head? = some 'i' := rfl

/-- The mutation template starts with the letter `i`. -/
theorem buildMutationTemplate_head (nspace fileName : String) :
    (buildMutationTemplate nspace fileName).data.head? = some 'i' := rfl

/-- The query template is not whitespace-empty. -/
theorem buildQueryTemplate_trim_pos (nspace fileName : String) :
    0 < (jsTrim (buildQueryTemplate nspace fileName)).length := by
  cases hd : (buildQueryTemplate nspace fileName).data with
  | nil =>
    have := buildQueryTemplate_head nspace fileName
    rw [hd] at this
    simp at this
  | cons c rest =>
    have hh := buildQueryTemplate_head nspace fileName
    rw [hd] at hh
    simp only [List.head?_cons, Option.some.injEq] at hh
    subst hh
    exact jsTrim_pos_of_head _ _ _ hd (by decide)

/-- The mutation template is not whitespace-empty. -/
theorem buildMutationTemplate_trim_pos (nspace fileName : String) :
    0 < (jsTrim (buildMutationTemplate nspace fileName)).length := by
  cases hd : (buildMutationTemplate nspace fileName).data with
  | nil =>
    have := buildMutationTemplate_head nspace fileName
    rw [hd] at this
    simp at this
  | cons c rest =>
    have hh := buildMutationTemplate_head nspace fileName
    rw [hd] at hh
    simp only [List.head?_cons, Option.some.injEq] at hh
    subst hh
    exact jsTrim_pos_of_head _ _ _ hd (by decide)

/-! ## Claim theorems: seeding -/

/-- C9: `maybeSeedOperationFile` leaves any file with non-whitespace
content unchanged; it writes a template only into a present,
whitespace-empty `.ts` file whose root-relative path has exactly three
segments with middle segment `queries` or `mutations` (every other call
leaves the file system unchanged); and seeding is idempotent — a second
seeding of the same file is a no-op, leaving the content identical to a
single seeding. -/
theorem seed_nonoverwrite_and_idempotent
    (resolvedDir : String) (fs : FS) (filePath : String) :
    ((∀ c, fs (seedTarget resolvedDir filePath) = some c → 0 < (jsTrim c).length →
      maybeSeedOperationFile resolvedDir fs filePath = fs))
    ∧ (maybeSeedOperationFile resolvedDir fs filePath = fs
      ∨ (strEndsWith filePath ".ts" = true
        ∧ (splitPath (pathRelative resolvedDir filePath)).length = 3
        ∧ ((splitPath (pathRelative resolvedDir filePath)).getD 1 "" = "queries"
          ∨ (splitPath (pathRelative resolvedDir filePath)).getD 1 "" = "mutations")
        ∧ ∃ c, fs (seedTarget resolvedDir filePath) = some c ∧ ¬0 < (jsTrim c).length
          ∧ maybeSeedOperationFile resolvedDir fs filePath
            = fsWrite fs (seedTarget resolvedDir filePath)
              (if (splitPath (pathRelative resolvedDir filePath)).getD 1 "" = "queries"
                then buildQueryTemplate
                  ((splitPath (pathRelative resolvedDir filePath)).getD 0 "")
                  (let filename := (splitPath (pathRelative resolvedDir filePath)).getD 2 ""
                   if strEndsWith filename ".ts" then strDropRight filename 3 else filename)
                else buildMutationTemplate
                  ((splitPath (pathRelative resolvedDir filePath)).getD 0 "")
                  (let filename := (splitPath (pathRelative resolvedDir filePath)).getD 2 ""
                   if strEndsWith filename ".ts" then strDropRight filename 3 else filename))))
    ∧ maybeSeedOperationFile resolvedDir (maybeSeedOperationFile resolvedDir fs filePath) filePath
      = maybeSeedOperationFile resolvedDir fs filePath := by
  by_cases hts : strEndsWith filePath ".ts" = true
  case neg =>
    have hid : maybeSeedOperationFile resolvedDir fs filePath = fs := by
      simp [maybeSeedOperationFile, hts]
    exact ⟨fun _ _ _ => hid, Or.inl hid, by rw [hid, hid]⟩
  case pos =>
  by_cases hlen : (splitPath (pathRelative resolvedDir filePath)).length = 3
  case neg =>
    have hid : maybeSeedOperationFile resolvedDir fs filePath = fs := by
      simp [maybeSeedOperationFile, hts, hlen]
    exact ⟨fun _ _ _ => hid, Or.inl hid, by rw [hid, hid]⟩
  case pos =>
  obtain ⟨a, b, c, hsegs⟩ := List.length_eq_three.mp hlen
  by_cases hscope : b = "queries" ∨ b = "mutations"
  case neg =>
    have hid : maybeSeedOperationFile resolvedDir fs filePath = fs := by
      simp [maybeSeedOperationFile, hts, hsegs, hscope]
    exact ⟨fun _ _ _ => hid, Or.inl hid, by rw [hid, hid]⟩
  case pos =>
  cases hread : fs (seedTarget resolvedDir filePath) with
  | none =>
    have hid : maybeSeedOperationFile resolvedDir fs filePath = fs := by
      simp [maybeSeedOperationFile, hts, hsegs, hscope, hread]
    exact ⟨fun _ _ _ => hid, Or.inl hid, by rw [hid, hid]⟩
  | some existing =>
    by_cases htrim : 0 < (jsTrim existing).length
    case pos =>
      have hid : maybeSeedOperationFile resolvedDir fs filePath = fs := by
        simp [maybeSeedOperationFile, hts, hsegs, hscope, hread, htrim]
      exact ⟨fun _ _ _ => hid, Or.inl hid, by rw [hid, hid]⟩
    case neg =>
      have hseed : maybeSeedOperationFile resolvedDir fs filePath
          = fsWrite fs (seedTarget resolvedDir filePath)
            (if b = "queries"
              then buildQueryTemplate a (if strEndsWith c ".ts" then strDropRight c 3 else c)
              else buildMutationTemplate a
                (if strEndsWith c ".ts" then strDropRight c 3 else c)) := by
        simp [maybeSeedOperationFile, hts, hsegs, hscope, hread, htrim]
      have htpos : 0 < (jsTrim
          (if b = "queries"
            then buildQueryTemplate a (if strEndsWith c ".ts" then strDropRight c 3 else c)
            else buildMutationTemplate a
              (if strEndsWith c ".ts" then strDropRight c 3 else c))).length := by
        by_cases hq : b = "queries"
        · simp only [hq, if_true, ite_true]
          exact buildQueryTemplate_trim_pos _ _
        · simp only [hq, if_false, ite_false]
          exact buildMutationTemplate_trim_pos _ _
      refine ⟨?_, Or.inr ⟨hts, hlen, ?_, existing, rfl, htrim, ?_⟩, ?_⟩
      · intro c₀ hc hpos
        cases hc
        exact absurd hpos htrim
      · simp [hsegs]
        exact hscope
      · rw [hseed]
        simp [hsegs]
      · rw [hseed]
        have hwrite : (fsWrite fs (seedTarget resolvedDir filePath)
            (if b = "queries"
              then buildQueryTemplate a (if strEndsWith c ".ts" then strDropRight c 3 else c)
              else buildMutationTemplate a
                (if strEndsWith c ".ts" then strDropRight c 3 else c)))
            (seedTarget resolvedDir filePath)
            = some (if b = "queries"
              then buildQueryTemplate a (if strEndsWith c ".ts" then strDropRight c 3 else c)
              else buildMutationTemplate a
                (if strEndsWith c ".ts" then strDropRight c 3 else c)) := by
          simp [fsWrite]
        simp [maybeSeedOperationFile, hts, hsegs, hscope, hwrite, htpos]

/-- Witness for C9: a seed attempt on a file with user content leaves it
unchanged, and seeding an empty operation file twice equals seeding it
once. -/
theorem seed_nonoverwrite_and_idempotent_witness :
    maybeSeedOperationFile "/r"
        (fun q => if q = "/r/domains/queries/example.ts" then some "x" else none)
        "/r/domains/queries/example.ts"
      = (fun q => if q = "/r/domains/queries/example.ts" then some "x" else none)
    ∧ maybeSeedOperationFile "/r"
        (maybeSeedOperationFile "/r"
          (fun q => if q = "/r/domains/queries/example.ts" then some "" else none)
          "/r/domains/queries/example.ts")
        "/r/domains/queries/example.ts"
      = maybeSeedOperationFile "/r"
          (fun q => if q = "/r/domains/queries/example.ts" then some "" else none)
          "/r/domains/queries/example.ts" :=
  ⟨(seed_nonoverwrite_and_idempotent "/r"
      (fun q => if q = "/r/domains/queries/example.ts" then some "x" else none)
      "/r/domains/queries/example.ts").1 "x" (by decide) (by decide),
   (seed_nonoverwrite_and_idempotent "/r"
      (fun q => if q = "/r/domains/queries/example.ts" then some "" else none)
      "/r/domains/queries/example.ts").2.2⟩

end NXQ
